import Mathlib

/-!
Verification of the `ai_trader_bot` trading engine against its
natural-language specification.

The development shallowly embeds the Python modules that the checked
properties concern:

* `strategy/signals.py`    (namespace `Signals`)
* `learning/decision_learning.py` (namespace `DecisionLearning`)
* `learning/ai_interpreter.py`    (namespace `AIMemory`)
* `data/news.py`           (namespace `News`)
* `app/engine.py`          (namespace `Engine`)

Python floats are modelled as rationals (`ℚ`); the sole irrational
operation, `statistics.stdev(...) * 252 ** 0.5`, is modelled over `ℝ`
with `Real.sqrt`.  Python `dict`s are modelled either as association
lists (insertion ordered, unique keys, as CPython guarantees) or, where
iteration order is irrelevant, as functions with a default.  Fallible
code paths (Python exceptions such as `ZeroDivisionError` or attribute
errors) are modelled with `Option`/`Except`.  Persistence and journal
side effects (`_save`, `_append_journal`) write derived data to disk and
never feed back into the in-memory state, so they are not part of the
state model.
-/

/-- Python helper `_clamp(value, low, high) = max(low, min(high, value))`
(identical in `decision_learning.py` and `ai_interpreter.py`). -/
def pyClamp (value low high : ℚ) : ℚ :=
  max low (min high value)

/-- Python `str.upper()` (per-character uppercasing; ticker symbols are ASCII). -/
def strUpper (s : String) : String :=
  String.mk (s.data.map Char.toUpper)

/-- Python `str.lower()` (per-character lowercasing). -/
def strLower (s : String) : String :=
  String.mk (s.data.map Char.toLower)

/-- Lookup in an association list modelling a Python `dict` (`d.get(k)`). -/
def alistLookup {α : Type} : List (String × α) → String → Option α
  | [], _ => none
  | (k, v) :: rest, key => if k = key then some v else alistLookup rest key

/-- Python `d[k] = v`: update in place when the key exists (CPython keeps the
original insertion position), append at the end otherwise. -/
def alistInsert {α : Type} : List (String × α) → String → α → List (String × α)
  | [], key, v => [(key, v)]
  | (k, w) :: rest, key, v =>
      if k = key then (k, v) :: rest else (k, w) :: alistInsert rest key v

/-- Python `d.pop(k, None)`: remove the entry with the given key. -/
def alistErase {α : Type} : List (String × α) → String → List (String × α)
  | [], _ => []
  | (k, v) :: rest, key =>
      if k = key then rest else (k, v) :: alistErase rest key

/-- The keys of an association list are pairwise distinct (the invariant any
Python `dict` guarantees structurally). -/
def keysNodup {α : Type} (l : List (String × α)) : Prop :=
  (l.map Prod.fst).Nodup

namespace Signals

/-- `core/models.py` `Signal` dataclass (the fields `compute_signal_with_ai`
populates; `macro_score` keeps its dataclass default `0.0`). -/
structure Signal where
  symbol : String
  price : ℚ
  momentum20d : ℚ
  momentum5d : ℚ
  trend20d : ℚ
  volatility20d : ℝ
  newsScore : ℚ
  score : ℝ
  aiShortTermScore : ℚ
  aiLongTermScore : ℚ
  aiConfidence : ℚ
  macroScore : ℚ := 0

/-- `signals.py` `_daily_returns`: successive-close returns, skipping pairs
whose earlier close is non-positive (so its division never raises). -/
def dailyReturns : List ℚ → List ℚ
  | [] => []
  | [_] => []
  | previous :: current :: rest =>
      if previous ≤ 0 then dailyReturns (current :: rest)
      else (current / previous - 1) :: dailyReturns (current :: rest)

/-- Mean of a list of rationals (`statistics.fmean`, exact arithmetic model). -/
def listMean (xs : List ℚ) : ℚ :=
  xs.sum / xs.length

/-- Sample variance with Bessel's correction, as `statistics.stdev` squares;
only ever used on lists of length ≥ 2. -/
def sampleVariance (xs : List ℚ) : ℚ :=
  ((xs.map fun x => (x - listMean xs) ^ 2).sum) / (xs.length - 1 : ℕ)

/-- `statistics.stdev(xs)` = the square root of the sample variance. -/
noncomputable def stdev (xs : List ℚ) : ℝ :=
  Real.sqrt (sampleVariance xs)

/-- `signals.py` `_annualized_volatility(closes, window=20)`:
`statistics.stdev(returns) * 252 ** 0.5` over the returns of the last
`window + 1` closes, or `0.0` when fewer than two returns exist. -/
noncomputable def annualizedVolatility (closes : List ℚ) : ℝ :=
  let returns := dailyReturns (closes.drop (closes.length - 21))
  if returns.length < 2 then 0
  else stdev returns * Real.sqrt 252

/-- `signals.py` `compute_signal_with_ai`.  The result is
`Except Unit (Option Signal)`: `.error ()` models the `ZeroDivisionError`
Python raises when `closes[-21]` (for `momentum_20d`) or `closes[-6]`
(for `momentum_5d`) is zero; `.ok none` models returning `None`. -/
noncomputable def computeSignalWithAi (symbol : String) (price : ℚ) (closes : List ℚ)
    (newsScore aiShortTermScore aiLongTermScore aiConfidence
      aiShortTermWeight aiLongTermWeight : ℚ) :
    Except Unit (Option Signal) :=
  if price ≤ 0 ∨ closes.length < 25 then .ok none
  else
    let last := closes.getD (closes.length - 1) 0
    let c21 := closes.getD (closes.length - 21) 0
    let c6 := closes.getD (closes.length - 6) 0
    if c21 = 0 then .error ()
    else if c6 = 0 then .error ()
    else
      let momentum20d := last / c21 - 1
      let momentum5d := last / c6 - 1
      let sma20 := listMean (closes.drop (closes.length - 20))
      let trend20d := if 0 < sma20 then last / sma20 - 1 else 0
      let volatility20d := annualizedVolatility closes
      -- Composite score favors trend/momentum while layering fast news +
      -- slower AI thesis (same comment as the source).
      let score : ℝ :=
        ((45 / 100 : ℚ) * momentum20d + (20 / 100 : ℚ) * momentum5d
            + (20 / 100 : ℚ) * trend20d + (25 / 100 : ℚ) * newsScore
            + aiShortTermWeight * aiShortTermScore
            + aiLongTermWeight * aiLongTermScore : ℚ)
          - (15 / 100) * min volatility20d 1
      .ok (some
        { symbol := symbol
          price := price
          momentum20d := momentum20d
          momentum5d := momentum5d
          trend20d := trend20d
          volatility20d := volatility20d
          newsScore := newsScore
          score := score
          aiShortTermScore := aiShortTermScore
          aiLongTermScore := aiLongTermScore
          aiConfidence := aiConfidence })

/-- `signals.py` `compute_signal`: delegates to `compute_signal_with_ai`
with every AI score, confidence and weight set to `0.0`. -/
noncomputable def computeSignal (symbol : String) (price : ℚ) (closes : List ℚ)
    (newsScore : ℚ) : Except Unit (Option Signal) :=
  computeSignalWithAi symbol price closes newsScore 0 0 0 0 0

/-- Score of a returned `Signal`, `0` on `None` or a raised exception. -/
noncomputable def resultScore : Except Unit (Option Signal) → ℝ
  | .ok (some s) => s.score
  | _ => 0

/-- `momentum_20d` of a returned `Signal`, `0` otherwise. -/
def resultMomentum20d : Except Unit (Option Signal) → ℚ
  | .ok (some s) => s.momentum20d
  | _ => 0

/-- `momentum_5d` of a returned `Signal`, `0` otherwise. -/
def resultMomentum5d : Except Unit (Option Signal) → ℚ
  | .ok (some s) => s.momentum5d
  | _ => 0

/-- `trend_20d` of a returned `Signal`, `0` otherwise. -/
def resultTrend20d : Except Unit (Option Signal) → ℚ
  | .ok (some s) => s.trend20d
  | _ => 0

/-- `volatility_20d` of a returned `Signal`, `0` otherwise. -/
noncomputable def resultVolatility : Except Unit (Option Signal) → ℝ
  | .ok (some s) => s.volatility20d
  | _ => 0

/-- The composite-score formula exactly as the specification words it:
`0.45·momentum_20d + 0.20·momentum_5d + 0.20·trend_20d + 0.25·sentiment +
short_weight·ai_short·confidence + long_weight·ai_long·confidence −
0.15·min(volatility_20d, 1.0)` — note the AI confidence factors. -/
noncomputable def specCompositeScore (momentum20d momentum5d trend20d sentiment
    aiShort aiLong confidence shortWeight longWeight : ℚ) (volatility20d : ℝ) : ℝ :=
  ((45 / 100 : ℚ) * momentum20d + (20 / 100 : ℚ) * momentum5d
      + (20 / 100 : ℚ) * trend20d + (25 / 100 : ℚ) * sentiment
      + shortWeight * aiShort * confidence
      + longWeight * aiLong * confidence : ℚ)
    - (15 / 100) * min volatility20d 1

end Signals

namespace DecisionLearning

/-- `decision_learning.py` `FEATURE_KEYS` (fixed eight-key feature space). -/
inductive FeatureKey where
  | momentum20d
  | momentum5d
  | trend20d
  | newsScore
  | macroScore
  | aiShortTerm
  | aiLongTerm
  | volatilityRisk
  deriving DecidableEq, Fintype, Repr

/-- `FEATURE_KEYS` in source order. -/
def featureKeys : List FeatureKey :=
  [.momentum20d, .momentum5d, .trend20d, .newsScore, .macroScore,
   .aiShortTerm, .aiLongTerm, .volatilityRisk]

/-- Resolution outcome classified by `maybe_resolve_call`. -/
inductive Outcome where
  | badCall
  | goodCall
  | neutral
  deriving DecidableEq, Repr

/-- One row of a source profile (`{"sentiment": …, "count": …, "multiplier": …}`).
Non-numeric JSON values are coerced to the same defaults the Python
`_normalize_source_profile` substitutes, so rows are modelled numeric. -/
structure SourceRow where
  sentiment : ℚ
  count : ℚ
  multiplier : ℚ
  deriving DecidableEq, Repr

/-- An entry of `open_calls`.  `createdAt` is `none` when the stored
`created_at` is missing or unparseable, `entryPrice` is `none` when the
stored `entry_price` is not a number; timestamps are seconds since epoch.
The bookkeeping fields (`id`, `rationale`, `kind`) never influence the
store's behaviour and are omitted. -/
structure OpenCallRec where
  createdAt : Option ℚ
  entryPrice : Option ℚ
  signalScore : ℚ
  featureProfile : FeatureKey → ℚ
  sourceProfile : List (String × SourceRow)
  deriving DecidableEq

/-- Immutable store configuration, as established by
`DecisionLearningStore.__init__` (which clamps `learning_rate` and
`source_learning_rate` into `[0, 1]` and forces `max_feature_penalty`,
`max_source_bias` ≥ 0 and a positive horizon). -/
structure StoreConfig where
  evaluationHorizon : ℚ
  badCallReturnThreshold : ℚ
  goodCallReturnThreshold : ℚ
  learningRate : ℚ
  maxFeaturePenalty : ℚ
  enableSourcePriorityLearning : Bool
  sourceLearningRate : ℚ
  maxSourceBias : ℚ
  deriving DecidableEq

/-- Mutable state of `DecisionLearningStore` touched by the call ledger:
`feature_penalties` (always exactly the eight `FEATURE_KEYS`),
`source_bias` (a dict read through `.get(key, 0.0)`, modelled as a total
function with default `0`) and `open_calls` (keyed by upper-cased symbol).
`market_observations` is only touched by `update_from_market_reaction`,
which is outside the verified operations. -/
structure Store where
  featurePenalties : FeatureKey → ℚ
  sourceBias : String → ℚ
  openCalls : List (String × OpenCallRec)

/-- The fields of `core.models.Signal` that `maybe_record_call` reads. -/
structure ScoredSignal where
  symbol : String
  price : ℚ
  score : ℚ
  deriving DecidableEq

/-- Key normalization `raw_key.strip().lower() or "unknown"`. -/
def normSourceKey (raw : String) : String :=
  let clean := strLower raw.trim
  if clean = "" then "unknown" else clean

/-- `DecisionLearningStore._normalize_source_profile`: drop rows with
non-positive counts, clamp sentiment to `[-1, 1]`, count to `≥ 0` and
multiplier to `[0.1, 3]`, normalizing keys (later duplicates overwrite). -/
def normalizeSourceProfile (profile : List (String × SourceRow)) :
    List (String × SourceRow) :=
  profile.foldl
    (fun acc entry =>
      let key := normSourceKey entry.1
      if entry.2.count ≤ 0 then acc
      else
        alistInsert acc key
          { sentiment := pyClamp entry.2.sentiment (-1) 1
            count := max 0 entry.2.count
            multiplier := pyClamp entry.2.multiplier (1 / 10) 3 })
    []

/-- `DecisionLearningStore.adjustment_for`: starting from `0.0`, subtract
`penalty[key] * max(0, profile.get(key, 0.0))` for every feature key (the
source's `volatility_risk` branch computes the same exposure as the
general branch). -/
def adjustmentFor (penalties profile : FeatureKey → ℚ) : ℚ :=
  featureKeys.foldl (fun adjustment key => adjustment - penalties key * max 0 (profile key)) 0

/-- `DecisionLearningStore._update_penalties`: per-feature penalty update with
`magnitude = min(|realized_return| / 0.05, 2.0)`; `bad_call` adds
`rate·magnitude·exposure`, `good_call` subtracts half of it, both clamped to
`[0, max_feature_penalty]`; zero exposure (or a `neutral` outcome) leaves the
penalty untouched. -/
def updatePenalties (learningRate maxFeaturePenalty : ℚ)
    (penalties featureProfile : FeatureKey → ℚ)
    (realizedReturn : ℚ) (outcome : Outcome) : FeatureKey → ℚ :=
  let magnitude := min (|realizedReturn| / (5 / 100)) 2
  fun key =>
    let exposure := max 0 (featureProfile key)
    if exposure = 0 then penalties key
    else
      match outcome with
      | .badCall =>
          pyClamp (penalties key + learningRate * magnitude * exposure) 0 maxFeaturePenalty
      | .goodCall =>
          pyClamp (penalties key - (1 / 2) * learningRate * magnitude * exposure) 0 maxFeaturePenalty
      | .neutral => penalties key

/-- `DecisionLearningStore._update_source_bias`: realized market move mapped to
`clamp(realized_return / 0.05, -2, 2)`, each profile row nudging its source's
bias by `rate · channel_weight · realized_signal · sentiment · influence`,
clamped to `[-max_source_bias, max_source_bias]`.  (The source only assigns
when the clamped value differs from the previous value, which is extensionally
the same mapping.) -/
def updateSourceBias (cfg : StoreConfig) (bias : String → ℚ)
    (sourceProfile : List (String × SourceRow))
    (realizedReturn channelWeight : ℚ) : String → ℚ :=
  if ¬cfg.enableSourcePriorityLearning ∨ sourceProfile = [] then bias
  else
    let realizedSignal := pyClamp (realizedReturn / (5 / 100)) (-2) 2
    if realizedSignal = 0 then bias
    else
      let totalCount := (sourceProfile.map fun entry => max 0 entry.2.count).sum
      if totalCount ≤ 0 then bias
      else
        sourceProfile.foldl
          (fun b entry =>
            let sentiment := pyClamp entry.2.sentiment (-1) 1
            let count := max 0 entry.2.count
            if count ≤ 0 ∨ sentiment = 0 then b
            else
              let countShare := count / totalCount
              let influence := min 1 |sentiment| * countShare
              let delta := cfg.sourceLearningRate * channelWeight * realizedSignal
                * sentiment * influence
              if delta = 0 then b
              else
                fun key =>
                  if key = entry.1 then
                    pyClamp (b entry.1 + delta) (-cfg.maxSourceBias) cfg.maxSourceBias
                  else b key)
          bias

/-- `DecisionLearningStore.maybe_record_call`: records an open call only when
the signal's score reaches `min(entry_threshold, option_threshold)` and no
open call exists for the (upper-cased) symbol; `now` is the wall clock the
source reads via `_now_utc()`. -/
def maybeRecordCall (st : Store) (signal : ScoredSignal)
    (featureProfile : FeatureKey → ℚ) (sourceProfile : List (String × SourceRow))
    (entryThreshold optionThreshold : ℚ) (now : ℚ) : Store :=
  if signal.score < min entryThreshold optionThreshold then st
  else
    let symbol := strUpper signal.symbol
    match alistLookup st.openCalls symbol with
    | some _ => st
    | none =>
        { st with
            openCalls :=
              alistInsert st.openCalls symbol
                { createdAt := some now
                  entryPrice := some signal.price
                  signalScore := signal.score
                  featureProfile := featureProfile
                  sourceProfile := normalizeSourceProfile sourceProfile } }

/-- The data of a `decision_call_resolved` journal event that later logic can
read back (remaining event entries are diagnostic strings). -/
structure ResolveEvent where
  symbol : String
  realizedReturn : ℚ
  outcome : Outcome
  deriving DecidableEq

/-- `DecisionLearningStore.maybe_resolve_call`: returns the resolution event
(`none` on every early exit) together with the updated store.  A call whose
`created_at` is missing/unparseable is popped and dropped; one whose horizon
has elapsed but whose `entry_price` is missing or non-positive is likewise
popped; an existing call inside its horizon is left untouched. -/
def maybeResolveCall (cfg : StoreConfig) (st : Store) (now : ℚ)
    (symbol : String) (currentPrice : ℚ) : Option ResolveEvent × Store :=
  if currentPrice ≤ 0 then (none, st)
  else
    let key := strUpper symbol
    match alistLookup st.openCalls key with
    | none => (none, st)
    | some call =>
      match call.createdAt with
      | none => (none, { st with openCalls := alistErase st.openCalls key })
      | some createdAt =>
        if now - createdAt < cfg.evaluationHorizon then (none, st)
        else
          match call.entryPrice with
          | none => (none, { st with openCalls := alistErase st.openCalls key })
          | some entryPrice =>
            if entryPrice ≤ 0 then (none, { st with openCalls := alistErase st.openCalls key })
            else
              let realizedReturn := currentPrice / entryPrice - 1
              let outcome : Outcome :=
                if realizedReturn ≤ cfg.badCallReturnThreshold then .badCall
                else if cfg.goodCallReturnThreshold ≤ realizedReturn then .goodCall
                else .neutral
              (some { symbol := key, realizedReturn := realizedReturn, outcome := outcome },
                { featurePenalties :=
                    updatePenalties cfg.learningRate cfg.maxFeaturePenalty
                      st.featurePenalties call.featureProfile realizedReturn outcome
                  sourceBias :=
                    updateSourceBias cfg st.sourceBias
                      (normalizeSourceProfile call.sourceProfile) realizedReturn 1
                  openCalls := alistErase st.openCalls key })

end DecisionLearning

namespace AIMemory

/-- One per-symbol row of `LongTermMemoryStore.state`.  `_load` guarantees a
numeric `score`, makes `last_prediction` present only when numeric and
`last_price` present only when numeric and positive (`apply_price_feedback`
still re-checks positivity).  The `updated_at` metadata is never read back
and is omitted. -/
structure MemRow where
  score : ℚ
  lastPrediction : Option ℚ
  lastPrice : Option ℚ
  deriving DecidableEq

/-- `LongTermMemoryStore.state`: a dict keyed by upper-cased symbol,
modelled as a total function with `none` for absent keys. -/
def MemState : Type := String → Option MemRow

/-- `LongTermMemoryStore.get(symbol)`: the stored score, `0.0` when the
symbol has no row. -/
def memGet (st : MemState) (symbol : String) : ℚ :=
  match st (strUpper symbol) with
  | none => 0
  | some row => row.score

/-- `LongTermMemoryStore.apply_price_feedback(symbol, current_price, strength)`:
returns `(adjustment, new state)`.  No-op returning `0.0` unless the price is
positive and the row holds a numeric prediction and a positive reference
price; otherwise nudges the stored score by
`clamp(strength,0,1) · (pred · clamp(realized/0.125,-1,1)) · |pred|` and
re-anchors `last_price` at the current price. -/
def applyPriceFeedback (st : MemState) (symbol : String)
    (currentPrice strength : ℚ) : ℚ × MemState :=
  if currentPrice ≤ 0 then (0, st)
  else
    let key := strUpper symbol
    match st key with
    | none => (0, st)
    | some row =>
      match row.lastPrediction, row.lastPrice with
      | some prediction, some referencePrice =>
          if referencePrice ≤ 0 then (0, st)
          else
            let pred := pyClamp prediction (-1) 1
            let realizedReturn := currentPrice / referencePrice - 1
            -- Normalize realized move into [-1, 1], mapping +/-12.5% to full score.
            let realizedSignal := pyClamp (realizedReturn / (125 / 1000)) (-1) 1
            let agreement := pred * realizedSignal
            -- Wrong-way moves (negative agreement) reduce stored long-term conviction.
            let feedbackStrength := pyClamp strength 0 1
            let adjustment := feedbackStrength * agreement * |pred|
            let updatedScore := pyClamp (memGet st symbol + adjustment) (-1) 1
            (adjustment,
              fun k =>
                if k = key then
                  some { score := updatedScore
                         lastPrediction := row.lastPrediction
                         lastPrice := some currentPrice }
                else st k)
      | _, _ => (0, st)

/-- A prior prediction and positive reference price exist for the symbol and
the current price is positive — the condition under which
`apply_price_feedback` does real work. -/
def feedbackApplicable (st : MemState) (symbol : String) (currentPrice : ℚ) : Prop :=
  0 < currentPrice ∧
    ∃ row p r, st (strUpper symbol) = some row ∧
      row.lastPrediction = some p ∧ row.lastPrice = some r ∧ 0 < r

end AIMemory

namespace News

/-- `news.py` `POSITIVE_WORDS`. -/
def positiveWords : List String :=
  ["beats", "beat", "growth", "surge", "record", "strong", "upgrade",
   "bullish", "breakthrough", "expands", "partnership", "profit",
   "outperform", "demand", "upside"]

/-- `news.py` `NEGATIVE_WORDS`. -/
def negativeWords : List String :=
  ["miss", "misses", "weak", "downgrade", "lawsuit", "probe", "delay",
   "cuts", "cut", "layoffs", "decline", "bearish", "risk", "warning",
   "downside"]

/-- A character matched by the regex class `[a-zA-Z']`. -/
def isWordChar (c : Char) : Bool :=
  (('a' ≤ c ∧ c ≤ 'z') ∨ ('A' ≤ c ∧ c ≤ 'Z') ∨ c = Char.ofNat 39 : Bool)

/-- Maximal runs of word characters, i.e. `re.findall(r"[a-zA-Z']+", s)`. -/
def wordRuns : List Char → List (List Char)
  | [] => []
  | c :: rest =>
      let tailRuns := wordRuns rest
      if isWordChar c then
        match rest with
        | r :: _ =>
            if isWordChar r then
              match tailRuns with
              | t :: ts => (c :: t) :: ts
              | [] => [[c]]
            else [c] :: tailRuns
        | [] => [[c]]
      else tailRuns

/-- `news.py` `_headline_score`: `(positive - negative) / (positive + negative)`
over lexicon hits among the lower-cased words, `0.0` when there are no words
or no hits. -/
def headlineScore (headline : String) : ℚ :=
  let words := (wordRuns (strLower headline).toList).map fun cs => String.mk cs
  if words = [] then 0
  else
    let positive := (words.filter fun token => positiveWords.contains token).length
    let negative := (words.filter fun token => negativeWords.contains token).length
    if positive = 0 ∧ negative = 0 then 0
    else ((positive : ℚ) - negative) / ((positive : ℚ) + negative)

/-- The fields of `NewsItem` that `source_weighted_sentiment` reads. -/
structure NewsItem where
  title : String
  sourceType : String
  deriving DecidableEq

/-- `(item.source_type or "unknown").strip().lower() or "unknown"`. -/
def itemSourceKey (item : NewsItem) : String :=
  let raw := if item.sourceType = "" then "unknown" else item.sourceType
  let clean := strLower raw.trim
  if clean = "" then "unknown" else clean

/-- `scores_by_source.setdefault(k, []).append(score)`: append the score to the
key's list, creating the key at the end of the dict on first sight. -/
def alistPush (l : List (String × List ℚ)) (key : String) (score : ℚ) :
    List (String × List ℚ) :=
  match alistLookup l key with
  | some scores => alistInsert l key (scores ++ [score])
  | none => l ++ [(key, [score])]

/-- `counts_by_source[k] = counts_by_source.get(k, 0) + 1`. -/
def alistIncr (l : List (String × ℕ)) (key : String) : List (String × ℕ) :=
  alistInsert l key ((alistLookup l key).getD 0 + 1)

/-- The first loop of `source_weighted_sentiment`: group headline scores and
counts by normalized source type, in item order. -/
def blendGroups (items : List NewsItem) :
    List (String × List ℚ) × List (String × ℕ) :=
  items.foldl
    (fun acc item =>
      let key := itemSourceKey item
      let score := headlineScore item.title
      (alistPush acc.1 key score, alistIncr acc.2 key))
    ([], [])

/-- The multiplier applied to one source type:
`max(0.10, min(source_multipliers.get(k, 1.0), 3.0))`, or `1.0` when no
multiplier dict was supplied. -/
def sourceMultiplierValue (sourceMultipliers : Option (List (String × ℚ)))
    (key : String) : ℚ :=
  match sourceMultipliers with
  | none => 1
  | some multipliers => max (1 / 10) (min ((alistLookup multipliers key).getD 1) 3)

/-- The second loop of `source_weighted_sentiment`: clamp each source's mean
score, accumulate `weighted_sum` and `total_weight` with
`weight = count * multiplier`.  Returns
`(sentiment_by_source, weighted_sum, total_weight)`. -/
def blendTotals (counts : List (String × ℕ))
    (sourceMultipliers : Option (List (String × ℚ))) :
    List (String × List ℚ) → List (String × ℚ) × ℚ × ℚ
  | [] => ([], 0, 0)
  | (key, scores) :: rest =>
      let aggregate := if scores = [] then 0 else scores.sum / scores.length
      let sentiment := max (-1) (min 1 aggregate)
      let count := ((alistLookup counts key).getD 0 : ℕ)
      let multiplier := sourceMultiplierValue sourceMultipliers key
      let weight := (count : ℚ) * multiplier
      let tail := blendTotals counts sourceMultipliers rest
      ((key, sentiment) :: tail.1, sentiment * weight + tail.2.1,
        weight + tail.2.2)

/-- `news.py` `source_weighted_sentiment(items, source_multipliers)`:
`(aggregate, sentiment_by_source, counts_by_source)`. -/
def sourceWeightedSentiment (items : List NewsItem)
    (sourceMultipliers : Option (List (String × ℚ))) :
    ℚ × List (String × ℚ) × List (String × ℕ) :=
  if items = [] then (0, [], [])
  else
    let groups := blendGroups items
    let totals := blendTotals groups.2 sourceMultipliers groups.1
    if totals.2.2 ≤ 0 then (0, totals.1, groups.2)
    else (max (-1) (min 1 (totals.2.1 / totals.2.2)), totals.1, groups.2)

/-- The `total_weight` that `source_weighted_sentiment` accumulates. -/
def blendTotalWeight (items : List NewsItem)
    (sourceMultipliers : Option (List (String × ℚ))) : ℚ :=
  (blendTotals (blendGroups items).2 sourceMultipliers (blendGroups items).1).2.2

end News

namespace Engine

/-- The fields of `core.models.Signal` the order planner reads. -/
structure ESignal where
  symbol : String
  price : ℚ
  score : ℚ
  deriving DecidableEq

/-- `core.models.TradeOrder`.  The `reason` diagnostics embed formatted float
scores in the source; the formatted digits are elided here. -/
structure TradeOrder where
  assetType : String
  symbol : String
  instruction : String
  quantity : ℤ
  limitPrice : Option ℚ
  reason : String
  deriving DecidableEq

/-- `core.models.PortfolioSnapshot` (positions as insertion-ordered dicts). -/
structure Snapshot where
  cash : ℚ
  equityPositions : List (String × ℤ)
  optionPositions : List (String × ℤ)
  deriving DecidableEq

/-- The `BotConfig` fields `_build_equity_orders` / `_build_option_orders`
read (`option_min_dte`, `option_max_dte` and `option_target_delta` are only
forwarded to `choose_bullish_call`, which is abstracted as an oracle). -/
structure EngineConfig where
  minSignalToEnter : ℚ
  signalToExit : ℚ
  minOrderNotional : ℚ
  equityCapitalFraction : ℚ
  maxPositionFraction : ℚ
  maxEquityPositions : ℕ
  enableOptions : Bool
  maxOptionContracts : ℤ
  optionCapitalFraction : ℚ
  optionSignalThreshold : ℚ
  deriving DecidableEq

/-- The fields of `strategy.options.OptionContract` the planner reads. -/
structure OContract where
  symbol : String
  premiumPerContract : ℚ
  ask : ℚ
  mark : ℚ
  deriving DecidableEq

/-- Python `round(x, 2)` on the planner's limit prices (float round-half-even;
half-cent ties, which never decide any verified property, are modelled
half-up). -/
def pyRound2 (x : ℚ) : ℚ :=
  (round (x * 100) : ℤ) / 100

/-- The candidate-deduplication loop shared by the override paths of both
builders: keep a signal when its upper-cased symbol was not seen yet and is a
key of `signals_by_symbol`. -/
def dedupCandidates (signalsBySymbol : String → Option ESignal) :
    List ESignal → List String → List ESignal
  | [], _ => []
  | signal :: rest, seen =>
      let symbol := strUpper signal.symbol
      if seen.contains symbol then dedupCandidates signalsBySymbol rest seen
      else if (signalsBySymbol symbol).isNone then dedupCandidates signalsBySymbol rest seen
      else signal :: dedupCandidates signalsBySymbol rest (symbol :: seen)

/-- Candidate selection of `_build_equity_orders`: the score filter on the
rules path, the dedup filter on the override path, then
`[: max_equity_positions]`. -/
def selectEquityCandidates (cfg : EngineConfig)
    (signalsBySymbol : String → Option ESignal) (signals : List ESignal)
    (override : Option (List ESignal)) : List ESignal :=
  (match override with
   | none => signals.filter fun signal => cfg.minSignalToEnter ≤ ESignal.score signal
   | some overrideSignals => dedupCandidates signalsBySymbol overrideSignals []).take
    cfg.maxEquityPositions

/-- `target_qty` construction: `max(0, int(per_position_budget // price))` per
candidate, keyed by the raw signal symbol.  `none` models the
`ZeroDivisionError` Python raises on a zero price. -/
def computeTargetQty (perPositionBudget : ℚ) :
    List ESignal → List (String × ℤ) → Option (List (String × ℤ))
  | [], acc => some acc
  | signal :: rest, acc =>
      if signal.price = 0 then none
      else
        computeTargetQty perPositionBudget rest
          (alistInsert acc signal.symbol (max 0 ⌊perPositionBudget / signal.price⌋))

/-- A SELL equity order as the exits loop emits it. -/
def sellOrder (symbol : String) (quantity : ℤ) (reason : String) : TradeOrder :=
  { assetType := "EQUITY", symbol := symbol, instruction := "SELL"
    quantity := quantity, limitPrice := none, reason := reason }

/-- The exits loop of `_build_equity_orders` ("Exits first to free cash and
cut weak names"): walks the equity positions, emitting SELL orders and adding
estimated proceeds to the running cash.  `none` models the `AttributeError`
Python raises when a position has a target quantity but no signal. -/
def equityExitsLoop (signalsBySymbol : String → Option ESignal)
    (signalToExit : ℚ) (forcedExits : List String)
    (targetQty : List (String × ℤ)) :
    List (String × ℤ) → ℚ → Option (List TradeOrder × ℚ)
  | [], cash => some ([], cash)
  | (symbol, quantity) :: rest, cash =>
      if quantity ≤ 0 then
        equityExitsLoop signalsBySymbol signalToExit forcedExits targetQty rest cash
      else if forcedExits.contains (strUpper symbol) then
        let cash' :=
          match signalsBySymbol symbol with
          | some signal => cash + quantity * signal.price
          | none => cash
        (equityExitsLoop signalsBySymbol signalToExit forcedExits targetQty rest cash').map
          fun (orders, c) => (sellOrder symbol quantity "llm_forced_exit" :: orders, c)
      else
        match alistLookup targetQty symbol with
        | some desired =>
            if desired < quantity then
              match signalsBySymbol symbol with
              | none => none
              | some signal =>
                  (equityExitsLoop signalsBySymbol signalToExit forcedExits targetQty rest
                      (cash + (quantity - desired) * signal.price)).map
                    fun (orders, c) =>
                      (sellOrder symbol (quantity - desired) "rebalance_down" :: orders, c)
            else
              equityExitsLoop signalsBySymbol signalToExit forcedExits targetQty rest cash
        | none =>
            match signalsBySymbol symbol with
            | none =>
                (equityExitsLoop signalsBySymbol signalToExit forcedExits targetQty rest
                    cash).map
                  fun (orders, c) => (sellOrder symbol quantity "signal_exit" :: orders, c)
            | some signal =>
                if signal.score ≤ signalToExit then
                  (equityExitsLoop signalsBySymbol signalToExit forcedExits targetQty rest
                      (cash + quantity * signal.price)).map
                    fun (orders, c) => (sellOrder symbol quantity "signal_exit" :: orders, c)
                else
                  equityExitsLoop signalsBySymbol signalToExit forcedExits targetQty rest cash

/-- The entries loop of `_build_equity_orders` ("Entries and add-ons"): a BUY
is emitted only when its notional `to_buy * price` reaches the minimum order
notional and does not exceed the running estimated cash, which it is then
subtracted from.  Each emitted order is paired with the `notional` the loop
computed for it, so theorems can speak about it; the order list the source
returns is the `Prod.fst` projection. -/
def equityEntriesLoop (minOrderNotional : ℚ) (targetQty heldQty : List (String × ℤ)) :
    List ESignal → ℚ → List (TradeOrder × ℚ) × ℚ
  | [], cash => ([], cash)
  | signal :: rest, cash =>
      let desired := (alistLookup targetQty signal.symbol).getD 0
      let held := (alistLookup heldQty signal.symbol).getD 0
      let toBuy := desired - held
      if toBuy ≤ 0 then equityEntriesLoop minOrderNotional targetQty heldQty rest cash
      else
        let notional := toBuy * signal.price
        if notional < minOrderNotional then
          equityEntriesLoop minOrderNotional targetQty heldQty rest cash
        else if cash < notional then
          equityEntriesLoop minOrderNotional targetQty heldQty rest cash
        else
          let tail :=
            equityEntriesLoop minOrderNotional targetQty heldQty rest (cash - notional)
          (({ assetType := "EQUITY", symbol := signal.symbol, instruction := "BUY"
              quantity := toBuy
              limitPrice := some (pyRound2 (signal.price * (10025 / 10000)))
              reason := "signal_entry" }, notional) :: tail.1, tail.2)

/-- The `target_qty` stage of `_build_equity_orders`: empty without
candidates, otherwise `max(0, int(per_position_budget // price))` per
candidate with `per_position_budget = min(account_equity ·
max_position_fraction, equity_budget / len(candidates))`. -/
def equityTargetQty (cfg : EngineConfig)
    (signalsBySymbol : String → Option ESignal) (accountEquity : ℚ)
    (signals : List ESignal) (override : Option (List ESignal)) :
    Option (List (String × ℤ)) :=
  let candidates := selectEquityCandidates cfg signalsBySymbol signals override
  if candidates = [] then some []
  else
    let equityBudget := accountEquity * cfg.equityCapitalFraction
    let perPositionBudget :=
      min (accountEquity * cfg.maxPositionFraction) (equityBudget / candidates.length)
    computeTargetQty perPositionBudget candidates []

/-- `AutoTrader._build_equity_orders`: candidate selection, per-position
budgeting (`target_qty` stays empty without candidates), the exits loop
starting from `snapshot.cash`, then the entries loop starting from the cash
the exits loop produced.  Returns `(orders, estimated_cash)`; `none` models a
raised exception. -/
def buildEquityOrders (cfg : EngineConfig)
    (signalsBySymbol : String → Option ESignal) (snapshot : Snapshot)
    (accountEquity : ℚ) (signals : List ESignal) (override : Option (List ESignal))
    (forcedExitSymbols : List String) : Option (List TradeOrder × ℚ) :=
  let candidates := selectEquityCandidates cfg signalsBySymbol signals override
  let forcedExits := forcedExitSymbols.map strUpper
  match equityTargetQty cfg signalsBySymbol accountEquity signals override with
  | none => none
  | some targetQty =>
    match equityExitsLoop signalsBySymbol cfg.signalToExit forcedExits targetQty
        snapshot.equityPositions snapshot.cash with
    | none => none
    | some exits =>
        let entries :=
          equityEntriesLoop cfg.minOrderNotional targetQty snapshot.equityPositions
            candidates exits.2
        some (exits.1 ++ (entries.1.map Prod.fst), entries.2)

/-- A SELL_TO_CLOSE option order as the option exits loop emits it. -/
def sellToCloseOrder (symbol : String) (quantity : ℤ) (reason : String) : TradeOrder :=
  { assetType := "OPTION", symbol := symbol, instruction := "SELL_TO_CLOSE"
    quantity := quantity, limitPrice := none, reason := reason }

/-- The option exits loop of `_build_option_orders` ("Close options tied to
weak underlyings"). `underlyingOf` is `strategy.options.option_underlying`. -/
def optionExitsLoop (signalsBySymbol : String → Option ESignal)
    (underlyingOf : String → String) (signalToExit : ℚ)
    (forcedExits : List String) : List (String × ℤ) → List TradeOrder
  | [] => []
  | (optionSymbol, quantity) :: rest =>
      let tailOrders :=
        optionExitsLoop signalsBySymbol underlyingOf signalToExit forcedExits rest
      if quantity ≤ 0 then tailOrders
      else
        let underlying := underlyingOf optionSymbol
        if forcedExits.contains (strUpper underlying) then
          sellToCloseOrder optionSymbol quantity "llm_forced_exit" :: tailOrders
        else
          match signalsBySymbol underlying with
          | some signal =>
              if signal.score ≤ signalToExit then
                sellToCloseOrder optionSymbol quantity "underlying_signal_exit" :: tailOrders
              else tailOrders
          | none => tailOrders

/-- The entries loop of `_build_option_orders`.  `pickContract symbol budget`
abstracts `broker.get_option_chain` followed by `choose_bullish_call` with
`max_premium_dollars=budget`; `none` covers both a failed chain fetch (caught
and skipped) and no chosen contract.  A BUY_TO_OPEN is emitted only when the
contract's premium fits `min(budget_left, cash_left)` and is then subtracted
from both; each emitted order is paired with that premium, the order list the
source accumulates being the `Prod.fst` projection. -/
def optionEntriesLoop (pickContract : String → ℚ → Option OContract)
    (minOrderNotional optionSignalThreshold : ℚ) (isOverride : Bool)
    (forcedExits : List String) :
    List ESignal → ℤ → ℚ → ℚ → List String → List (TradeOrder × ℚ)
  | [], _, _, _, _ => []
  | signal :: rest, remainingSlots, budgetLeft, cashLeft, heldUnderlyings =>
      if remainingSlots ≤ 0 then []
      else if forcedExits.contains (strUpper signal.symbol) then
        optionEntriesLoop pickContract minOrderNotional optionSignalThreshold isOverride
          forcedExits rest remainingSlots budgetLeft cashLeft heldUnderlyings
      else if ¬isOverride ∧ signal.score < optionSignalThreshold then []
      else if heldUnderlyings.contains signal.symbol then
        optionEntriesLoop pickContract minOrderNotional optionSignalThreshold isOverride
          forcedExits rest remainingSlots budgetLeft cashLeft heldUnderlyings
      else
        let perContractBudget := min budgetLeft cashLeft
        if perContractBudget < minOrderNotional then []
        else
          match pickContract signal.symbol perContractBudget with
          | none =>
              optionEntriesLoop pickContract minOrderNotional optionSignalThreshold isOverride
                forcedExits rest remainingSlots budgetLeft cashLeft heldUnderlyings
          | some contract =>
              if perContractBudget < contract.premiumPerContract then
                optionEntriesLoop pickContract minOrderNotional optionSignalThreshold isOverride
                  forcedExits rest remainingSlots budgetLeft cashLeft heldUnderlyings
              else
                let limitBasis := if 0 < contract.ask then contract.ask else contract.mark
                let limitPrice :=
                  if 0 < limitBasis then some (pyRound2 limitBasis) else none
                ({ assetType := "OPTION", symbol := contract.symbol
                   instruction := "BUY_TO_OPEN", quantity := 1
                   limitPrice := limitPrice, reason := "option_overlay" },
                  contract.premiumPerContract) ::
                  optionEntriesLoop pickContract minOrderNotional optionSignalThreshold
                    isOverride forcedExits rest (remainingSlots - 1)
                    (budgetLeft - contract.premiumPerContract)
                    (cashLeft - contract.premiumPerContract)
                    (signal.symbol :: heldUnderlyings)

/-- `AutoTrader._build_option_orders`: option exits, then (when options are
enabled, contract slots remain and the option budget reaches the minimum
order notional) the option entries loop over the candidate signals, starting
from `estimated_cash` as the running cash. -/
def buildOptionOrders (cfg : EngineConfig)
    (signalsBySymbol : String → Option ESignal) (underlyingOf : String → String)
    (pickContract : String → ℚ → Option OContract) (snapshot : Snapshot)
    (accountEquity estimatedCash : ℚ) (signals : List ESignal)
    (override : Option (List ESignal)) (forcedExitSymbols : List String) :
    List TradeOrder :=
  if ¬cfg.enableOptions ∨ cfg.maxOptionContracts ≤ 0 then []
  else
    let forcedExits := forcedExitSymbols.map strUpper
    let exitOrders :=
      optionExitsLoop signalsBySymbol underlyingOf cfg.signalToExit forcedExits
        snapshot.optionPositions
    let openContracts := (snapshot.optionPositions.map fun entry => max 0 entry.2).sum
    let remainingSlots := cfg.maxOptionContracts - openContracts
    if remainingSlots ≤ 0 then exitOrders
    else
      let maxOptionBudget :=
        min (accountEquity * cfg.optionCapitalFraction) estimatedCash
      if maxOptionBudget < cfg.minOrderNotional then exitOrders
      else
        let heldUnderlyings :=
          (snapshot.optionPositions.filter fun entry => 0 < entry.2).map
            fun entry => underlyingOf entry.1
        let candidates :=
          match override with
          | none => signals
          | some overrideSignals => dedupCandidates signalsBySymbol overrideSignals []
        exitOrders ++
          (optionEntriesLoop pickContract cfg.minOrderNotional cfg.optionSignalThreshold
              override.isSome forcedExits candidates remainingSlots maxOptionBudget
              estimatedCash heldUnderlyings).map Prod.fst

/-- The exit-order stage of `_build_option_orders`: empty when options are
disabled or no contracts are allowed, otherwise exactly the
`SELL_TO_CLOSE` loop over the open option positions.  `buildOptionOrders`
emits precisely these orders before any entry. -/
def optionExitOrdersOf (cfg : EngineConfig)
    (signalsBySymbol : String → Option ESignal) (underlyingOf : String → String)
    (snapshot : Snapshot) (forcedExitSymbols : List String) : List TradeOrder :=
  if ¬cfg.enableOptions ∨ cfg.maxOptionContracts ≤ 0 then []
  else
    optionExitsLoop signalsBySymbol underlyingOf cfg.signalToExit
      (forcedExitSymbols.map strUpper) snapshot.optionPositions

/-- The annotated entry stage of `_build_option_orders`: empty on each of its
three early returns (options disabled / no contract slots left / option
budget below the minimum order notional), otherwise the entries loop run
with the remaining contract slots, the option budget
`min(account_equity · option_capital_fraction, estimated_cash)` and the
running cash started at `estimated_cash`.  `buildOptionOrders` appends
exactly the `Prod.fst` projections of these pairs after the exit orders. -/
def optionEntryPairs (cfg : EngineConfig)
    (signalsBySymbol : String → Option ESignal) (underlyingOf : String → String)
    (pickContract : String → ℚ → Option OContract) (snapshot : Snapshot)
    (accountEquity estimatedCash : ℚ) (signals : List ESignal)
    (override : Option (List ESignal)) (forcedExitSymbols : List String) :
    List (TradeOrder × ℚ) :=
  if ¬cfg.enableOptions ∨ cfg.maxOptionContracts ≤ 0 then []
  else
    let forcedExits := forcedExitSymbols.map strUpper
    let openContracts := (snapshot.optionPositions.map fun entry => max 0 entry.2).sum
    let remainingSlots := cfg.maxOptionContracts - openContracts
    if remainingSlots ≤ 0 then []
    else
      let maxOptionBudget :=
        min (accountEquity * cfg.optionCapitalFraction) estimatedCash
      if maxOptionBudget < cfg.minOrderNotional then []
      else
        let heldUnderlyings :=
          (snapshot.optionPositions.filter fun entry => 0 < entry.2).map
            fun entry => underlyingOf entry.1
        let candidates :=
          match override with
          | none => signals
          | some overrideSignals => dedupCandidates signalsBySymbol overrideSignals []
        optionEntriesLoop pickContract cfg.minOrderNotional cfg.optionSignalThreshold
          override.isSome forcedExits candidates remainingSlots maxOptionBudget
          estimatedCash heldUnderlyings

/-- Cash-threading predicate: every annotated order in the list has its
notional covered by the running cash at the moment it is appended, the
notional being subtracted from the running cash afterwards. -/
def notionalsFitCash : ℚ → List (TradeOrder × ℚ) → Prop
  | _, [] => True
  | cash, (_, notional) :: rest => notional ≤ cash ∧ notionalsFitCash (cash - notional) rest

end Engine

/-! ## Association-list lemmas -/

theorem alistLookup_alistInsert_self {α : Type} (l : List (String × α)) (k : String) (v : α) :
    alistLookup (alistInsert l k v) k = some v := by
  induction l with
  | nil => simp [alistInsert, alistLookup]
  | cons head rest ih =>
      obtain ⟨a, w⟩ := head
      by_cases hak : a = k
      · simp [alistInsert, alistLookup, hak]
      · simp [alistInsert, alistLookup, hak, ih]

theorem alistLookup_alistInsert_ne {α : Type} (l : List (String × α)) (k k' : String) (v : α)
    (h : k' ≠ k) : alistLookup (alistInsert l k v) k' = alistLookup l k' := by
  have hks : ¬(k = k') := fun he => h he.symm
  induction l with
  | nil => simp [alistInsert, alistLookup, hks]
  | cons head rest ih =>
      obtain ⟨a, w⟩ := head
      by_cases hak : a = k
      · subst hak
        simp [alistInsert, alistLookup, hks]
      · simp only [alistInsert, hak, if_false, alistLookup, ih]

theorem mem_keys_alistInsert {α : Type} (l : List (String × α)) (k : String) (v : α)
    (x : String) (hx : x ∈ (alistInsert l k v).map Prod.fst) :
    x ∈ l.map Prod.fst ∨ x = k := by
  induction l with
  | nil => exact Or.inr (by simpa [alistInsert] using hx)
  | cons head rest ih =>
      obtain ⟨a, w⟩ := head
      by_cases hak : a = k
      · simp only [alistInsert, hak, if_true, eq_self_iff_true, List.map_cons,
          List.mem_cons] at hx
        simp only [List.map_cons, List.mem_cons]
        rcases hx with hx | hx
        · exact Or.inr hx
        · exact Or.inl (Or.inr hx)
      · simp only [alistInsert, hak, if_false, List.map_cons, List.mem_cons] at hx
        simp only [List.map_cons, List.mem_cons]
        rcases hx with hx | hx
        · exact Or.inl (Or.inl hx)
        · rcases ih hx with h' | h'
          · exact Or.inl (Or.inr h')
          · exact Or.inr h'

theorem keysNodup_alistInsert {α : Type} (l : List (String × α)) (k : String) (v : α)
    (h : keysNodup l) : keysNodup (alistInsert l k v) := by
  induction l with
  | nil => simp [alistInsert, keysNodup]
  | cons head rest ih =>
      obtain ⟨a, w⟩ := head
      unfold keysNodup at h
      simp only [List.map_cons, List.nodup_cons] at h
      by_cases hak : a = k
      · unfold keysNodup
        simpa [alistInsert, hak] using h
      · have htail := ih h.2
        unfold keysNodup at htail ⊢
        simp only [alistInsert, hak, if_false, List.map_cons, List.nodup_cons]
        refine ⟨fun hmem => ?_, htail⟩
        rcases mem_keys_alistInsert rest k v a hmem with hmem' | hmem'
        · exact h.1 hmem'
        · exact hak hmem'

/-! ## Evaluation lemmas for `compute_signal_with_ai` on constant closes -/

theorem dailyReturns_replicate_one : ∀ n : ℕ,
    Signals.dailyReturns (List.replicate n (1 : ℚ)) = List.replicate (n - 1) 0
  | 0 => rfl
  | 1 => rfl
  | (n + 2) => by
      have ih := dailyReturns_replicate_one (n + 1)
      have h2 : List.replicate (n + 2) (1 : ℚ) = 1 :: 1 :: List.replicate n 1 := rfl
      have h1 : List.replicate (n + 1) (1 : ℚ) = 1 :: List.replicate n 1 := rfl
      rw [h2, Signals.dailyReturns, if_neg (by norm_num : ¬(1 : ℚ) ≤ 0)]
      rw [h1] at ih
      rw [ih]
      norm_num
      rfl

theorem sampleVariance_replicate_zero (n : ℕ) :
    Signals.sampleVariance (List.replicate n (0 : ℚ)) = 0 := by
  unfold Signals.sampleVariance Signals.listMean
  simp

theorem annualizedVolatility_ones :
    Signals.annualizedVolatility (List.replicate 25 (1 : ℚ)) = 0 := by
  unfold Signals.annualizedVolatility
  have hdrop : (List.replicate 25 (1 : ℚ)).drop ((List.replicate 25 (1 : ℚ)).length - 21)
      = List.replicate 21 1 := rfl
  rw [hdrop, dailyReturns_replicate_one 21]
  norm_num [Signals.stdev, sampleVariance_replicate_zero]

/-- On 25 constant closes at `1.0` with price `1.0`, the momentum, trend and
volatility features all vanish and the composite reduces to
`0.25·news + short_weight·ai_short + long_weight·ai_long`. -/
theorem computeSignalWithAi_ones (symbol : String) (news ais ail conf sw lw : ℚ) :
    Signals.computeSignalWithAi symbol 1 (List.replicate 25 (1 : ℚ)) news ais ail conf sw lw
      = .ok (some
          { symbol := symbol, price := 1, momentum20d := 0, momentum5d := 0
            trend20d := 0, volatility20d := 0, newsScore := news
            score := (((25 / 100) * news + sw * ais + lw * ail : ℚ) : ℝ)
            aiShortTermScore := ais, aiLongTermScore := ail
            aiConfidence := conf, macroScore := 0 }) := by
  unfold Signals.computeSignalWithAi
  rw [if_neg (by simp : ¬((1 : ℚ) ≤ 0 ∨ (List.replicate 25 (1 : ℚ)).length < 25))]
  have h21 : (List.replicate 25 (1 : ℚ)).getD ((List.replicate 25 (1 : ℚ)).length - 21) 0 = 1 :=
    rfl
  have h6 : (List.replicate 25 (1 : ℚ)).getD ((List.replicate 25 (1 : ℚ)).length - 6) 0 = 1 :=
    rfl
  have hlast : (List.replicate 25 (1 : ℚ)).getD ((List.replicate 25 (1 : ℚ)).length - 1) 0 = 1 :=
    rfl
  simp only [h21, h6, hlast]
  rw [if_neg (by norm_num : ¬(1 : ℚ) = 0)]
  rw [if_neg (by norm_num : ¬(1 : ℚ) = 0)]
  have hsma : Signals.listMean
      ((List.replicate 25 (1 : ℚ)).drop ((List.replicate 25 (1 : ℚ)).length - 20)) = 1 := by
    have hd : (List.replicate 25 (1 : ℚ)).drop ((List.replicate 25 (1 : ℚ)).length - 20)
        = List.replicate 20 1 := rfl
    rw [hd]
    unfold Signals.listMean
    rw [List.sum_replicate]
    simp [nsmul_eq_mul]
  rw [hsma]
  rw [if_pos (by norm_num : (0 : ℚ) < 1)]
  rw [annualizedVolatility_ones]
  norm_num

/-! ## C10 — `compute_signal` as a strict specialization -/

/-- C10: for all inputs, `compute_signal(symbol, price, closes, news_score)`
returns exactly the same result as `compute_signal_with_ai` called with the
same positional arguments and all five AI keyword arguments equal to `0.0`. -/
theorem compute_signal_specializes_ai_entry_point :
    ∀ (symbol : String) (price : ℚ) (closes : List ℚ) (newsScore : ℚ),
      Signals.computeSignal symbol price closes newsScore
        = Signals.computeSignalWithAi symbol price closes newsScore 0 0 0 0 0 :=
  fun _ _ _ _ => rfl

/-! ## C9 — penalty adjustments only dampen positive exposure -/

theorem foldl_sub_map_sum (f : DecisionLearning.FeatureKey → ℚ) :
    ∀ (l : List DecisionLearning.FeatureKey) (init : ℚ),
      l.foldl (fun a k => a - f k) init = init - (l.map f).sum
  | [], init => by simp
  | k :: rest, init => by
      simp only [List.foldl_cons, List.map_cons, List.sum_cons,
        foldl_sub_map_sum f rest (init - f k)]
      ring

/-- C9: `adjustment_for(profile)` equals the negated sum over the penalty keys
of `penalty[k] · max(0, profile[k])`, and is never positive whenever every
stored penalty is nonnegative. -/
theorem adjustment_for_neg_weighted_sum_and_nonpos :
    ∀ penalties profile : DecisionLearning.FeatureKey → ℚ,
      DecisionLearning.adjustmentFor penalties profile
          = -((DecisionLearning.featureKeys.map
                fun k => penalties k * max 0 (profile k)).sum)
        ∧ ((∀ k, 0 ≤ penalties k) →
            DecisionLearning.adjustmentFor penalties profile ≤ 0) := by
  intro penalties profile
  have hfold :
      DecisionLearning.adjustmentFor penalties profile
        = -((DecisionLearning.featureKeys.map
              fun k => penalties k * max 0 (profile k)).sum) := by
    unfold DecisionLearning.adjustmentFor
    rw [foldl_sub_map_sum (fun k => penalties k * max 0 (profile k))
      DecisionLearning.featureKeys 0]
    ring
  refine ⟨hfold, fun hnonneg => ?_⟩
  rw [hfold, neg_nonpos]
  refine List.sum_nonneg ?_
  intro x hx
  obtain ⟨k, _, rfl⟩ := List.mem_map.mp hx
  exact mul_nonneg (hnonneg k) (le_max_left _ _)

/-- Witness for C9 at a concrete penalty/profile pair. -/
theorem adjustment_for_nonpos_witness :
    DecisionLearning.adjustmentFor (fun _ => 1 / 2) (fun _ => 1) ≤ 0 :=
  (adjustment_for_neg_weighted_sum_and_nonpos (fun _ => 1 / 2) (fun _ => 1)).2
    (fun _ => by norm_num)

/-! ## C2 — `bad_call` penalty updates -/

/-- C2 counterexample: with the penalty for `momentum_20d` already at the cap
`max_feature_penalty = 1`, a `bad_call` resolution with learning rate `1`,
realized return `-1` (`magnitude = 2`) and exposure `1 > 0` leaves the
penalty at `1` — no strict increase, because the clamp absorbs the whole
`rate·magnitude·exposure` increment. -/
theorem update_penalties_no_strict_increase_at_cap :
    (0 : ℚ) < max 0 1
      ∧ DecisionLearning.updatePenalties 1 1 (fun _ => 1) (fun _ => 1) (-1)
          DecisionLearning.Outcome.badCall DecisionLearning.FeatureKey.momentum20d = 1 := by
  constructor
  · norm_num
  · norm_num [DecisionLearning.updatePenalties, pyClamp, min_def, max_def, abs]

/-- C2 amended: every penalty stays inside `[0, max_feature_penalty]` no
matter the outcome, and a `bad_call` strictly increases the penalty of a
feature with positive exposure by `min(rate·magnitude·exposure, headroom)` —
the strict increase requires a positive learning rate, a nonzero realized
return and a penalty still below the cap. -/
theorem update_penalties_bounds_and_bad_call_increase
    (rate maxP : ℚ) (pen prof : DecisionLearning.FeatureKey → ℚ) (rr : ℚ) :
    (∀ (outcome : DecisionLearning.Outcome) (k : DecisionLearning.FeatureKey),
        0 ≤ pen k → pen k ≤ maxP →
          0 ≤ DecisionLearning.updatePenalties rate maxP pen prof rr outcome k
            ∧ DecisionLearning.updatePenalties rate maxP pen prof rr outcome k ≤ maxP)
      ∧ (∀ k : DecisionLearning.FeatureKey,
          0 < rate → rr ≠ 0 → 0 < prof k → 0 ≤ pen k → pen k < maxP →
            pen k < DecisionLearning.updatePenalties rate maxP pen prof rr
                DecisionLearning.Outcome.badCall k
              ∧ DecisionLearning.updatePenalties rate maxP pen prof rr
                  DecisionLearning.Outcome.badCall k
                = min (pen k + rate * min (|rr| / (5 / 100)) 2 * prof k) maxP) := by
  constructor
  · intro outcome k h0 h1
    unfold DecisionLearning.updatePenalties
    by_cases he : max 0 (prof k) = 0
    · simp only [he, if_pos rfl]
      exact ⟨h0, h1⟩
    · have hmaxP : (0 : ℚ) ≤ maxP := le_trans h0 h1
      cases outcome with
      | badCall =>
          simp only [if_neg he, pyClamp]
          exact ⟨le_max_left _ _, max_le hmaxP (min_le_left _ _)⟩
      | goodCall =>
          simp only [if_neg he, pyClamp]
          exact ⟨le_max_left _ _, max_le hmaxP (min_le_left _ _)⟩
      | neutral =>
          simp only [if_neg he]
          exact ⟨h0, h1⟩
  · intro k hrate hrr hprof h0 hlt
    have hexp : max 0 (prof k) = prof k := max_eq_right hprof.le
    have hne : ¬max 0 (prof k) = 0 := by
      rw [hexp]
      exact ne_of_gt hprof
    have hmpos : 0 < min (|rr| / (5 / 100)) 2 :=
      lt_min (div_pos (abs_pos.mpr hrr) (by norm_num)) (by norm_num)
    have hdelta : 0 < rate * min (|rr| / (5 / 100)) 2 * prof k :=
      mul_pos (mul_pos hrate hmpos) hprof
    have hmaxP : (0 : ℚ) ≤ maxP := le_trans h0 hlt.le
    have hclamp :
        DecisionLearning.updatePenalties rate maxP pen prof rr
            DecisionLearning.Outcome.badCall k
          = min (pen k + rate * min (|rr| / (5 / 100)) 2 * prof k) maxP := by
      unfold DecisionLearning.updatePenalties
      rw [if_neg hne, hexp]
      have hx : (0 : ℚ) ≤ min maxP (pen k + rate * min (|rr| / (5 / 100)) 2 * prof k) :=
        le_min hmaxP (by linarith)
      rw [pyClamp, max_eq_right hx, min_comm]
    refine ⟨?_, hclamp⟩
    rw [hclamp]
    exact lt_min (by linarith) hlt

/-- Witness for C2 at a concrete store: learning rate `1/10`, cap `1`,
zero prior penalty, exposure `1`, realized return `-1/10`. -/
theorem update_penalties_bounds_and_increase_witness :
    ((0 : ℚ) ≤ DecisionLearning.updatePenalties (1 / 10) 1 (fun _ => 0) (fun _ => 1)
          (-(1 / 10)) DecisionLearning.Outcome.badCall DecisionLearning.FeatureKey.newsScore
        ∧ DecisionLearning.updatePenalties (1 / 10) 1 (fun _ => 0) (fun _ => 1)
            (-(1 / 10)) DecisionLearning.Outcome.badCall DecisionLearning.FeatureKey.newsScore
          ≤ 1)
      ∧ ((0 : ℚ) < DecisionLearning.updatePenalties (1 / 10) 1 (fun _ => 0) (fun _ => 1)
            (-(1 / 10)) DecisionLearning.Outcome.badCall DecisionLearning.FeatureKey.newsScore
          ∧ DecisionLearning.updatePenalties (1 / 10) 1 (fun _ => 0) (fun _ => 1)
              (-(1 / 10)) DecisionLearning.Outcome.badCall DecisionLearning.FeatureKey.newsScore
            = min ((0 : ℚ) + (1 / 10) * min (|(-(1 / 10) : ℚ)| / (5 / 100)) 2 * 1) 1) :=
  ⟨(update_penalties_bounds_and_bad_call_increase (1 / 10) 1 (fun _ => 0) (fun _ => 1)
        (-(1 / 10))).1 DecisionLearning.Outcome.badCall DecisionLearning.FeatureKey.newsScore
      (by norm_num) (by norm_num),
    (update_penalties_bounds_and_bad_call_increase (1 / 10) 1 (fun _ => 0) (fun _ => 1)
        (-(1 / 10))).2 DecisionLearning.FeatureKey.newsScore
      (by norm_num) (by norm_num) (by norm_num) (by norm_num) (by norm_num)⟩

/-! ## C5 — at most one open call per symbol -/

/-- C5: recording a call is idempotent — a second `maybe_record_call` for the
same symbol before resolution changes nothing — the open-call ledger keeps
its keys pairwise distinct, a score below `min(entry_threshold,
option_threshold)` records nothing, and an existing open call for the symbol
blocks any new record. -/
theorem maybe_record_call_at_most_one_open_call :
    ∀ (st : DecisionLearning.Store) (sig : DecisionLearning.ScoredSignal)
      (fp : DecisionLearning.FeatureKey → ℚ)
      (sp : List (String × DecisionLearning.SourceRow)) (et ot now now' : ℚ),
      DecisionLearning.maybeRecordCall
          (DecisionLearning.maybeRecordCall st sig fp sp et ot now) sig fp sp et ot now'
        = DecisionLearning.maybeRecordCall st sig fp sp et ot now
      ∧ (keysNodup st.openCalls →
          keysNodup (DecisionLearning.maybeRecordCall st sig fp sp et ot now).openCalls)
      ∧ (sig.score < min et ot →
          DecisionLearning.maybeRecordCall st sig fp sp et ot now = st)
      ∧ (∀ c, alistLookup st.openCalls (strUpper sig.symbol) = some c →
          DecisionLearning.maybeRecordCall st sig fp sp et ot now = st) := by
  intro st sig fp sp et ot now now'
  by_cases hs : sig.score < min et ot
  · refine ⟨?_, ?_, fun _ => ?_, fun c _ => ?_⟩ <;>
      simp [DecisionLearning.maybeRecordCall, hs]
  · cases hlk : alistLookup st.openCalls (strUpper sig.symbol) with
    | some c =>
        refine ⟨?_, ?_, fun h => absurd h hs, fun c' _ => ?_⟩
        · simp [DecisionLearning.maybeRecordCall, hs, hlk]
        · intro h
          simpa [DecisionLearning.maybeRecordCall, hs, hlk] using h
        · simp [DecisionLearning.maybeRecordCall, hs, hlk]
    | none =>
        refine ⟨?_, ?_, fun h => absurd h hs, fun c' hc' => ?_⟩
        · simp [DecisionLearning.maybeRecordCall, hs, hlk, alistLookup_alistInsert_self]
        · intro h
          simp only [DecisionLearning.maybeRecordCall, hs, if_false, hlk]
          exact keysNodup_alistInsert _ _ _ h
        · exact Option.noConfusion hc'

/-- Witness for C5: a concrete store with one open call for `"A"`, a fresh
symbol `"B"`, and a below-threshold signal. -/
theorem maybe_record_call_witness :
    keysNodup (DecisionLearning.maybeRecordCall
        { featurePenalties := fun _ => 0, sourceBias := fun _ => 0, openCalls := [] }
        { symbol := "B", price := 10, score := 1 } (fun _ => 0) [] (1 / 2) (3 / 4) 0).openCalls
      ∧ DecisionLearning.maybeRecordCall
          { featurePenalties := fun _ => 0, sourceBias := fun _ => 0, openCalls := [] }
          { symbol := "B", price := 10, score := 0 } (fun _ => 0) [] (1 / 2) (3 / 4) 0
        = { featurePenalties := fun _ => 0, sourceBias := fun _ => 0, openCalls := [] } :=
  ⟨(maybe_record_call_at_most_one_open_call
      { featurePenalties := fun _ => 0, sourceBias := fun _ => 0, openCalls := [] }
      { symbol := "B", price := 10, score := 1 } (fun _ => 0) [] (1 / 2) (3 / 4) 0 0).2.1
        (by simp [keysNodup]),
    (maybe_record_call_at_most_one_open_call
      { featurePenalties := fun _ => 0, sourceBias := fun _ => 0, openCalls := [] }
      { symbol := "B", price := 10, score := 0 } (fun _ => 0) [] (1 / 2) (3 / 4) 0 0).2.2.1
        (by norm_num)⟩

/-! ## C1 / C7 — the composite score and the `None`/raise contract -/

/-- C1 (amended): whenever `compute_signal_with_ai` returns a `Signal`, its
score equals `0.45·momentum_20d + 0.20·momentum_5d + 0.20·trend_20d +
0.25·sentiment + short_weight·ai_short + long_weight·ai_long −
0.15·min(volatility_20d, 1.0)`; the AI confidence is *not* a factor of the
composite — callers pre-scale the AI scores by confidence before passing
them. -/
theorem signals_score_scales_ai_terms_without_confidence :
    ∀ (symbol : String) (price : ℚ) (closes : List ℚ) (news ais ail conf sw lw : ℚ),
      (∃ sig, Signals.computeSignalWithAi symbol price closes news ais ail conf sw lw
          = .ok (some sig)) →
      Signals.resultScore (Signals.computeSignalWithAi symbol price closes news ais ail conf sw lw)
        = (((45 / 100 : ℚ)
              * Signals.resultMomentum20d
                  (Signals.computeSignalWithAi symbol price closes news ais ail conf sw lw)
            + (20 / 100)
              * Signals.resultMomentum5d
                  (Signals.computeSignalWithAi symbol price closes news ais ail conf sw lw)
            + (20 / 100)
              * Signals.resultTrend20d
                  (Signals.computeSignalWithAi symbol price closes news ais ail conf sw lw)
            + (25 / 100) * news + sw * ais + lw * ail : ℚ) : ℝ)
          - (15 / 100)
            * min (Signals.resultVolatility
                (Signals.computeSignalWithAi symbol price closes news ais ail conf sw lw)) 1 := by
  intro symbol price closes news ais ail conf sw lw h
  obtain ⟨sig, h⟩ := h
  rw [h]
  simp only [Signals.resultScore, Signals.resultMomentum20d, Signals.resultMomentum5d,
    Signals.resultTrend20d, Signals.resultVolatility]
  simp only [Signals.computeSignalWithAi] at h
  split at h
  · exact absurd h (by simp)
  · split at h
    · exact absurd h (by simp)
    · split at h
      · exact absurd h (by simp)
      · rw [Except.ok.injEq, Option.some.injEq] at h
        subst h
        rfl

/-- C1 counterexample: with constant closes at `1.0`, zero sentiment,
`ai_short = 1`, `short_weight = 1` and `confidence = 0`, the code's score is
`1`, while the specified composite (which multiplies the AI terms by the
confidence) evaluates to `0` — so the claimed formula with confidence factors
does not hold. -/
theorem signals_score_confidence_factor_counterexample :
    Signals.resultScore (Signals.computeSignalWithAi "NVDA" 1 (List.replicate 25 1) 0 1 0 0 1 0) = 1
    ∧ Signals.specCompositeScore
        (Signals.resultMomentum20d (Signals.computeSignalWithAi "NVDA" 1 (List.replicate 25 1) 0 1 0 0 1 0))
        (Signals.resultMomentum5d (Signals.computeSignalWithAi "NVDA" 1 (List.replicate 25 1) 0 1 0 0 1 0))
        (Signals.resultTrend20d (Signals.computeSignalWithAi "NVDA" 1 (List.replicate 25 1) 0 1 0 0 1 0))
        0 1 0 0 1 0
        (Signals.resultVolatility (Signals.computeSignalWithAi "NVDA" 1 (List.replicate 25 1) 0 1 0 0 1 0))
      = 0
    ∧ (1 : ℝ) ≠ 0 := by
  have h := computeSignalWithAi_ones "NVDA" 0 1 0 0 1 0
  rw [h]
  simp only [Signals.resultScore, Signals.resultMomentum20d, Signals.resultMomentum5d,
    Signals.resultTrend20d, Signals.resultVolatility]
  refine ⟨by norm_num, ?_, by norm_num⟩
  unfold Signals.specCompositeScore
  rw [min_eq_left (by norm_num : (0:ℝ) ≤ 1)]
  norm_num

/-- C7 (amended): `compute_signal_with_ai` returns `None` iff `price ≤ 0` or
fewer than 25 closes are supplied; with a positive price and at least 25
closes it returns a `Signal` provided `closes[-21]` and `closes[-6]` are
nonzero, and raises `ZeroDivisionError` (rather than returning) when either
of those closes is zero. -/
theorem compute_signal_none_iff_and_error_cases :
    ∀ (symbol : String) (price : ℚ) (closes : List ℚ) (news ais ail conf sw lw : ℚ),
      (Signals.computeSignalWithAi symbol price closes news ais ail conf sw lw = .ok none
          ↔ price ≤ 0 ∨ closes.length < 25)
      ∧ (0 < price → 25 ≤ closes.length →
          closes.getD (closes.length - 21) 0 ≠ 0 →
          closes.getD (closes.length - 6) 0 ≠ 0 →
          ∃ sig, Signals.computeSignalWithAi symbol price closes news ais ail conf sw lw
              = .ok (some sig))
      ∧ (0 < price → 25 ≤ closes.length →
          (closes.getD (closes.length - 21) 0 = 0 ∨ closes.getD (closes.length - 6) 0 = 0) →
          Signals.computeSignalWithAi symbol price closes news ais ail conf sw lw
            = .error ()) := by
  intro symbol price closes news ais ail conf sw lw
  by_cases h1 : price ≤ 0 ∨ closes.length < 25
  · refine ⟨?_, ?_, ?_⟩
    · have hC : Signals.computeSignalWithAi symbol price closes news ais ail conf sw lw
          = .ok none := by
        unfold Signals.computeSignalWithAi
        rw [if_pos h1]
      rw [hC]
      exact iff_of_true rfl h1
    · intro hp hl
      exact absurd h1 (by push_neg; exact ⟨by linarith, by omega⟩)
    · intro hp hl
      exact absurd h1 (by push_neg; exact ⟨by linarith, by omega⟩)
  · by_cases h21 : closes.getD (closes.length - 21) 0 = 0
    · have hC : Signals.computeSignalWithAi symbol price closes news ais ail conf sw lw
          = .error () := by
        unfold Signals.computeSignalWithAi
        rw [if_neg h1, if_pos h21]
      refine ⟨?_, ?_, fun _ _ _ => hC⟩
      · rw [hC]
        exact iff_of_false (by simp) h1
      · intro _ _ hne _
        exact absurd h21 hne
    · by_cases h6 : closes.getD (closes.length - 6) 0 = 0
      · have hC : Signals.computeSignalWithAi symbol price closes news ais ail conf sw lw
            = .error () := by
          unfold Signals.computeSignalWithAi
          rw [if_neg h1, if_neg h21, if_pos h6]
        refine ⟨?_, ?_, fun _ _ _ => hC⟩
        · rw [hC]
          exact iff_of_false (by simp) h1
        · intro _ _ _ hne
          exact absurd h6 hne
      · refine ⟨?_, fun _ _ _ _ => ?_, ?_⟩
        · unfold Signals.computeSignalWithAi
          rw [if_neg h1, if_neg h21, if_neg h6]
          exact iff_of_false (by simp) h1
        · unfold Signals.computeSignalWithAi
          rw [if_neg h1, if_neg h21, if_neg h6]
          exact ⟨_, rfl⟩
        · intro _ _ hor
          exact absurd hor (by push_neg; exact ⟨h21, h6⟩)

/-- C7 counterexample: with a positive price and 25 closes all equal to
`0.0`, `compute_signal_with_ai` raises `ZeroDivisionError` when it divides by
`closes[-21]`, so it does not return a `Signal` even though `price > 0` and
`len(closes) ≥ 25`. -/
theorem compute_signal_zero_close_raises_counterexample :
    (0 : ℚ) < 1 ∧ 25 ≤ (List.replicate 25 (0:ℚ)).length
    ∧ Signals.computeSignalWithAi "Z" 1 (List.replicate 25 0) 0 0 0 0 0 0 = .error () := by
  refine ⟨by norm_num, by simp, ?_⟩
  unfold Signals.computeSignalWithAi
  rw [if_neg (by simp : ¬((1:ℚ) ≤ 0 ∨ (List.replicate 25 (0:ℚ)).length < 25))]
  rw [if_pos (show (List.replicate 25 (0:ℚ)).getD ((List.replicate 25 (0:ℚ)).length - 21) 0 = 0 from rfl)]

/-- Witness for C7 (amended) at a concrete valid price series. -/
theorem compute_signal_returns_signal_witness :
    ∃ sig, Signals.computeSignalWithAi "V" 1 (List.replicate 25 1) 0 0 0 0 0 0
        = .ok (some sig) :=
  (compute_signal_none_iff_and_error_cases "V" 1 (List.replicate 25 1) 0 0 0 0 0 0).2.1
    (by norm_num) (by simp)
    (by rw [show (List.replicate 25 (1:ℚ)).getD ((List.replicate 25 (1:ℚ)).length - 21) 0 = 1 from rfl]; norm_num)
    (by rw [show (List.replicate 25 (1:ℚ)).getD ((List.replicate 25 (1:ℚ)).length - 6) 0 = 1 from rfl]; norm_num)

/-- Witness for C1 (amended) at a concrete signal computation. -/
theorem signals_score_formula_witness :
    Signals.resultScore (Signals.computeSignalWithAi "W" 1 (List.replicate 25 1) (1/2) (1/4) (1/8) (1/2) (1/3) (1/5))
      = (((45 / 100 : ℚ)
            * Signals.resultMomentum20d
                (Signals.computeSignalWithAi "W" 1 (List.replicate 25 1) (1/2) (1/4) (1/8) (1/2) (1/3) (1/5))
          + (20 / 100)
            * Signals.resultMomentum5d
                (Signals.computeSignalWithAi "W" 1 (List.replicate 25 1) (1/2) (1/4) (1/8) (1/2) (1/3) (1/5))
          + (20 / 100)
            * Signals.resultTrend20d
                (Signals.computeSignalWithAi "W" 1 (List.replicate 25 1) (1/2) (1/4) (1/8) (1/2) (1/3) (1/5))
          + (25 / 100) * (1/2) + (1/3) * (1/4) + (1/5) * (1/8) : ℚ) : ℝ)
        - (15 / 100)
          * min (Signals.resultVolatility
              (Signals.computeSignalWithAi "W" 1 (List.replicate 25 1) (1/2) (1/4) (1/8) (1/2) (1/3) (1/5))) 1 :=
  signals_score_scales_ai_terms_without_confidence "W" 1 (List.replicate 25 1) (1/2) (1/4) (1/8) (1/2) (1/3) (1/5)
    ⟨_, computeSignalWithAi_ones "W" (1/2) (1/4) (1/8) (1/2) (1/3) (1/5)⟩

/-! ## C3 — long-term memory price feedback -/

/-- A clamped value is below any bound that dominates both the lower clamp
bound and the raw value. -/
theorem pyClamp_lt (x lo hi s : ℚ) (hlo : lo < s) (hx : x < s) : pyClamp x lo hi < s := by
  unfold pyClamp
  exact max_lt hlo (lt_of_le_of_lt (min_le_right _ _) hx)

/-- A one-symbol memory store: symbol `"A"` with stored score `0`, a
recorded positive prediction `1.0` and reference price `1.0`. -/
def feedbackExampleState : AIMemory.MemState := fun k =>
  if k = "A" then some { score := 0, lastPrediction := some 1, lastPrice := some 1 } else none

/-- C3 (amended): `apply_price_feedback` is a no-op returning `0` unless a
prior prediction and positive reference price exist and `current_price > 0`;
and when the stored prediction is positive, the price declined
(`0 < current_price < reference`), the strength is *positive* and the stored
score is still above `-1`, the adjustment is strictly negative and the stored
score strictly decreases.  (The claim's unrestricted "for every strength"
fails: `strength ≤ 0` clamps to a zero feedback strength.) -/
theorem apply_price_feedback_noop_and_negative_feedback :
    ∀ (st : AIMemory.MemState) (symbol : String) (currentPrice strength : ℚ),
      (¬ AIMemory.feedbackApplicable st symbol currentPrice →
        AIMemory.applyPriceFeedback st symbol currentPrice strength = (0, st))
      ∧ (∀ row p r, st (strUpper symbol) = some row →
          row.lastPrediction = some p → 0 < p →
          row.lastPrice = some r → 0 < currentPrice → currentPrice < r →
          0 < strength → -1 < AIMemory.memGet st symbol →
          (AIMemory.applyPriceFeedback st symbol currentPrice strength).1 < 0
            ∧ AIMemory.memGet
                (AIMemory.applyPriceFeedback st symbol currentPrice strength).2 symbol
                < AIMemory.memGet st symbol) := by
  intro st symbol currentPrice strength
  constructor
  · intro h
    unfold AIMemory.applyPriceFeedback
    by_cases hcp : currentPrice ≤ 0
    · rw [if_pos hcp]
    · rw [if_neg hcp]
      push_neg at hcp
      cases hrow : st (strUpper symbol) with
      | none => simp [hrow]
      | some row =>
          cases hpred : row.lastPrediction with
          | none => simp [hrow, hpred]
          | some p =>
              cases hprice : row.lastPrice with
              | none => simp [hrow, hpred, hprice]
              | some r =>
                  simp only [hrow, hpred, hprice]
                  by_cases hr : r ≤ 0
                  · rw [if_pos hr]
                  · exact absurd ⟨hcp, row, p, r, hrow, hpred, hprice, not_le.mp hr⟩ h
  · intro row p r hrow hpred hp hprice hcp hlt hs hscore
    have hr : (0:ℚ) < r := lt_trans hcp hlt
    have hpred' : 0 < pyClamp p (-1) 1 := by
      unfold pyClamp
      exact lt_max_iff.mpr (Or.inr (lt_min one_pos hp))
    have hrr : currentPrice / r - 1 < 0 := by
      rw [sub_neg]
      exact (div_lt_one hr).mpr hlt
    have hrs : pyClamp ((currentPrice / r - 1) / (125 / 1000)) (-1) 1 < 0 := by
      unfold pyClamp
      refine max_lt (by norm_num) ?_
      exact lt_of_le_of_lt (min_le_right _ _) (div_neg_of_neg_of_pos hrr (by norm_num))
    have hfs : 0 < pyClamp strength 0 1 := by
      unfold pyClamp
      exact lt_max_iff.mpr (Or.inr (lt_min one_pos hs))
    have hadj : pyClamp strength 0 1
        * (pyClamp p (-1) 1 * pyClamp ((currentPrice / r - 1) / (125 / 1000)) (-1) 1)
        * |pyClamp p (-1) 1| < 0 :=
      mul_neg_of_neg_of_pos
        (mul_neg_of_pos_of_neg hfs (mul_neg_of_pos_of_neg hpred' hrs))
        (abs_pos.mpr (ne_of_gt hpred'))
    have hfst : (AIMemory.applyPriceFeedback st symbol currentPrice strength).1
        = pyClamp strength 0 1
          * (pyClamp p (-1) 1 * pyClamp ((currentPrice / r - 1) / (125 / 1000)) (-1) 1)
          * |pyClamp p (-1) 1| := by
      unfold AIMemory.applyPriceFeedback
      rw [if_neg (not_le.mpr hcp)]
      simp only [hrow, hpred, hprice]
      rw [if_neg (not_le.mpr hr)]
    have hsnd : (AIMemory.applyPriceFeedback st symbol currentPrice strength).2 (strUpper symbol)
        = some ⟨pyClamp (AIMemory.memGet st symbol
              + pyClamp strength 0 1
                * (pyClamp p (-1) 1 * pyClamp ((currentPrice / r - 1) / (125 / 1000)) (-1) 1)
                * |pyClamp p (-1) 1|) (-1) 1,
            row.lastPrediction, some currentPrice⟩ := by
      unfold AIMemory.applyPriceFeedback
      rw [if_neg (not_le.mpr hcp)]
      simp only [hrow, hpred, hprice]
      rw [if_neg (not_le.mpr hr)]
      simp
    refine ⟨by rw [hfst]; exact hadj, ?_⟩
    have hget : AIMemory.memGet
        (AIMemory.applyPriceFeedback st symbol currentPrice strength).2 symbol
        = pyClamp (AIMemory.memGet st symbol
            + pyClamp strength 0 1
              * (pyClamp p (-1) 1 * pyClamp ((currentPrice / r - 1) / (125 / 1000)) (-1) 1)
              * |pyClamp p (-1) 1|) (-1) 1 := by
      unfold AIMemory.memGet
      rw [hsnd]
      rfl
    rw [hget]
    exact pyClamp_lt _ _ _ _ hscore (by linarith)

/-- C3 counterexample: with a recorded positive prediction `1.0`, reference
price `1.0` and a price decline to `0.5`, calling `apply_price_feedback` with
`strength = 0` returns adjustment `0` (not negative) and leaves the stored
score unchanged — the claim quantified over *every* strength fails. -/
theorem apply_price_feedback_zero_strength_counterexample :
    (AIMemory.applyPriceFeedback feedbackExampleState "A" (1/2) 0).1 = 0
    ∧ AIMemory.memGet (AIMemory.applyPriceFeedback feedbackExampleState "A" (1/2) 0).2 "A"
        = AIMemory.memGet feedbackExampleState "A"
    ∧ (0:ℚ) < 1 ∧ (1/2 : ℚ) < 1 := by
  have hrow : feedbackExampleState (strUpper "A")
      = some ⟨0, some 1, some 1⟩ := rfl
  have hm0 : AIMemory.memGet feedbackExampleState "A" = 0 := rfl
  have hfst : (AIMemory.applyPriceFeedback feedbackExampleState "A" (1/2) 0).1
      = pyClamp 0 0 1
        * (pyClamp 1 (-1) 1 * pyClamp ((1/2 / 1 - 1) / (125 / 1000)) (-1) 1)
        * |pyClamp 1 (-1) 1| := by
    unfold AIMemory.applyPriceFeedback
    rw [if_neg (by norm_num : ¬(1/2 : ℚ) ≤ 0)]
    simp only [hrow]
    rw [if_neg (by norm_num : ¬(1 : ℚ) ≤ 0)]
  have hz : pyClamp 0 0 1
      * (pyClamp 1 (-1) 1 * pyClamp ((1/2 / 1 - 1) / (125 / 1000)) (-1) 1)
      * |pyClamp 1 (-1) 1| = 0 := by
    have h00 : pyClamp 0 0 1 = 0 := by norm_num [pyClamp]
    rw [h00]
    ring
  have hsnd : (AIMemory.applyPriceFeedback feedbackExampleState "A" (1/2) 0).2 (strUpper "A")
      = some ⟨pyClamp (AIMemory.memGet feedbackExampleState "A"
            + pyClamp 0 0 1
              * (pyClamp 1 (-1) 1 * pyClamp ((1/2 / 1 - 1) / (125 / 1000)) (-1) 1)
              * |pyClamp 1 (-1) 1|) (-1) 1,
          some 1, some (1/2)⟩ := by
    unfold AIMemory.applyPriceFeedback
    rw [if_neg (by norm_num : ¬(1/2 : ℚ) ≤ 0)]
    simp only [hrow]
    rw [if_neg (by norm_num : ¬(1 : ℚ) ≤ 0)]
    simp
  have hget : AIMemory.memGet (AIMemory.applyPriceFeedback feedbackExampleState "A" (1/2) 0).2 "A"
      = pyClamp (AIMemory.memGet feedbackExampleState "A"
          + pyClamp 0 0 1
            * (pyClamp 1 (-1) 1 * pyClamp ((1/2 / 1 - 1) / (125 / 1000)) (-1) 1)
            * |pyClamp 1 (-1) 1|) (-1) 1 := by
    conv in AIMemory.memGet _ "A" => unfold AIMemory.memGet
    rw [hsnd]
  refine ⟨by rw [hfst]; exact hz, ?_, by norm_num, by norm_num⟩
  rw [hget, hz, hm0]
  norm_num [pyClamp]

/-- Witness for C3 (amended): at strength `1`, the same decline yields a
negative adjustment and a strict score decrease. -/
theorem apply_price_feedback_negative_feedback_witness :
    (AIMemory.applyPriceFeedback feedbackExampleState "A" (1/2) 1).1 < 0
    ∧ AIMemory.memGet (AIMemory.applyPriceFeedback feedbackExampleState "A" (1/2) 1).2 "A"
        < AIMemory.memGet feedbackExampleState "A" :=
  (apply_price_feedback_noop_and_negative_feedback feedbackExampleState "A" (1/2) 1).2 ⟨0, some 1, some 1⟩ 1 1
    rfl rfl (by norm_num) rfl (by norm_num) (by norm_num) (by norm_num)
    (by rw [show AIMemory.memGet feedbackExampleState "A" = 0 from rfl]; norm_num)

/-! ## C8 — source-weighted sentiment on empty input -/

theorem alistPush_ne_nil (l : List (String × List ℚ)) (k : String) (s : ℚ) :
    News.alistPush l k s ≠ [] := by
  unfold News.alistPush
  cases h : alistLookup l k with
  | none => simp
  | some scores =>
      cases l with
      | nil => simp [alistLookup] at h
      | cons head rest =>
          obtain ⟨a, w⟩ := head
          unfold alistInsert
          by_cases hak : a = k <;> simp [hak]

theorem blendGroupsAux_fst_ne_nil :
    ∀ (items : List News.NewsItem) (acc : List (String × List ℚ) × List (String × ℕ)),
      acc.1 ≠ [] →
      (items.foldl
        (fun acc item =>
          (News.alistPush acc.1 (News.itemSourceKey item) (News.headlineScore item.title),
            News.alistIncr acc.2 (News.itemSourceKey item))) acc).1 ≠ []
  | [], acc, h => h
  | item :: rest, acc, h => by
      simp only [List.foldl_cons]
      exact blendGroupsAux_fst_ne_nil rest
        (News.alistPush acc.1 (News.itemSourceKey item) (News.headlineScore item.title),
          News.alistIncr acc.2 (News.itemSourceKey item))
        (alistPush_ne_nil acc.1 (News.itemSourceKey item) (News.headlineScore item.title))

theorem blendGroups_fst_ne_nil (items : List News.NewsItem) (h : items ≠ []) :
    (News.blendGroups items).1 ≠ [] := by
  cases items with
  | nil => exact absurd rfl h
  | cons item rest =>
      unfold News.blendGroups
      simp only [List.foldl_cons]
      exact blendGroupsAux_fst_ne_nil rest
        (News.alistPush [] (News.itemSourceKey item) (News.headlineScore item.title),
          News.alistIncr [] (News.itemSourceKey item))
        (alistPush_ne_nil [] (News.itemSourceKey item) (News.headlineScore item.title))

/-- Every source grouped so far has a positive count recorded for it. -/
def CountsCover (sb : List (String × List ℚ)) (cb : List (String × ℕ)) : Prop :=
  ∀ p ∈ sb, ∃ n, alistLookup cb p.1 = some n ∧ 1 ≤ n

theorem mem_alistInsert_elim {α : Type} :
    ∀ (l : List (String × α)) (key : String) (v : α) (p : String × α),
      p ∈ alistInsert l key v → p = (key, v) ∨ p ∈ l
  | [], key, v, p, hp => Or.inl (by simpa [alistInsert] using hp)
  | (a, w) :: rest, key, v, p, hp => by
      by_cases hak : a = key
      · subst hak
        unfold alistInsert at hp
        rw [if_pos rfl] at hp
        rcases List.mem_cons.mp hp with hp1 | hp1
        · exact Or.inl hp1
        · exact Or.inr (List.mem_cons_of_mem _ hp1)
      · unfold alistInsert at hp
        rw [if_neg hak] at hp
        rcases List.mem_cons.mp hp with hp1 | hp1
        · exact Or.inr (by simp [hp1])
        · rcases mem_alistInsert_elim rest key v p hp1 with h' | h'
          · exact Or.inl h'
          · exact Or.inr (List.mem_cons_of_mem _ h')

theorem alistLookup_alistIncr_self (cb : List (String × ℕ)) (k : String) :
    alistLookup (News.alistIncr cb k) k = some ((alistLookup cb k).getD 0 + 1) := by
  unfold News.alistIncr
  exact alistLookup_alistInsert_self _ _ _

theorem countsCover_step (sb : List (String × List ℚ)) (cb : List (String × ℕ))
    (k : String) (s : ℚ) (h : CountsCover sb cb) :
    CountsCover (News.alistPush sb k s) (News.alistIncr cb k) := by
  intro p hp
  have hmem : p.1 = k ∨ p ∈ sb := by
    unfold News.alistPush at hp
    cases hlk : alistLookup sb k with
    | none =>
        rw [hlk] at hp
        rcases List.mem_append.mp hp with hp' | hp'
        · exact Or.inr hp'
        · exact Or.inl (by simp at hp'; rw [hp'])
    | some scores =>
        rw [hlk] at hp
        rcases mem_alistInsert_elim _ _ _ _ hp with hp' | hp'
        · exact Or.inl (by rw [hp'])
        · exact Or.inr hp'
  by_cases hpk : p.1 = k
  · refine ⟨(alistLookup cb k).getD 0 + 1, ?_, by omega⟩
    rw [hpk]
    exact alistLookup_alistIncr_self cb k
  · rcases hmem with hp' | hp'
    · exact absurd hp' hpk
    · obtain ⟨n, hn, hn1⟩ := h p hp'
      refine ⟨n, ?_, hn1⟩
      unfold News.alistIncr
      rw [alistLookup_alistInsert_ne _ _ _ _ hpk, hn]

theorem blendGroupsAux_countsCover :
    ∀ (items : List News.NewsItem) (acc : List (String × List ℚ) × List (String × ℕ)),
      CountsCover acc.1 acc.2 →
      CountsCover
        (items.foldl
          (fun acc item =>
            (News.alistPush acc.1 (News.itemSourceKey item) (News.headlineScore item.title),
              News.alistIncr acc.2 (News.itemSourceKey item))) acc).1
        (items.foldl
          (fun acc item =>
            (News.alistPush acc.1 (News.itemSourceKey item) (News.headlineScore item.title),
              News.alistIncr acc.2 (News.itemSourceKey item))) acc).2
  | [], acc, h => h
  | item :: rest, acc, h => by
      simp only [List.foldl_cons]
      exact blendGroupsAux_countsCover rest
        (News.alistPush acc.1 (News.itemSourceKey item) (News.headlineScore item.title),
          News.alistIncr acc.2 (News.itemSourceKey item))
        (countsCover_step acc.1 acc.2 (News.itemSourceKey item)
          (News.headlineScore item.title) h)

theorem blendGroups_countsCover (items : List News.NewsItem) :
    CountsCover (News.blendGroups items).1 (News.blendGroups items).2 := by
  unfold News.blendGroups
  exact blendGroupsAux_countsCover items ([], []) (fun p hp => absurd hp (List.not_mem_nil p))

theorem sourceMultiplierValue_pos (sm : Option (List (String × ℚ))) (key : String) :
    0 < News.sourceMultiplierValue sm key := by
  unfold News.sourceMultiplierValue
  cases sm with
  | none => norm_num
  | some multipliers =>
      exact lt_of_lt_of_le (by norm_num : (0:ℚ) < 1 / 10) (le_max_left _ _)

theorem blendTotals_totalWeight_nonneg
    (counts : List (String × ℕ)) (sm : Option (List (String × ℚ))) :
    ∀ sb : List (String × List ℚ), 0 ≤ (News.blendTotals counts sm sb).2.2
  | [] => le_refl 0
  | (key, scores) :: rest => by
      have ih := blendTotals_totalWeight_nonneg counts sm rest
      unfold News.blendTotals
      have hw : 0 ≤ ((((alistLookup counts key).getD 0 : ℕ) : ℚ))
          * News.sourceMultiplierValue sm key :=
        mul_nonneg (Nat.cast_nonneg _) (sourceMultiplierValue_pos sm key).le
      simpa using add_nonneg hw ih

theorem blendTotals_totalWeight_pos
    (counts : List (String × ℕ)) (sm : Option (List (String × ℚ)))
    (sb : List (String × List ℚ)) (hcover : CountsCover sb counts) (hne : sb ≠ []) :
    0 < (News.blendTotals counts sm sb).2.2 := by
  cases sb with
  | nil => exact absurd rfl hne
  | cons head rest =>
      obtain ⟨key, scores⟩ := head
      obtain ⟨n, hn, hn1⟩ := hcover (key, scores) (List.mem_cons_self _ _)
      have hcount : ((alistLookup counts key).getD 0 : ℚ) = (n : ℚ) := by
        rw [hn]
        rfl
      have hw : 0 < (((alistLookup counts key).getD 0 : ℕ) : ℚ)
          * News.sourceMultiplierValue sm key := by
        refine mul_pos ?_ (sourceMultiplierValue_pos sm key)
        rw [hcount]
        exact_mod_cast hn1
      have ih := blendTotals_totalWeight_nonneg counts sm rest
      unfold News.blendTotals
      simpa using add_pos_of_pos_of_nonneg hw ih

/-- C8: `source_weighted_sentiment` returns exactly `(0.0, {}, {})` whenever
the item list is empty or the accumulated `total_weight` is zero; in fact a
zero total weight forces the item list to be empty, since every grouped
source contributes `count ≥ 1` times a multiplier clamped to at least
`0.10`. -/
theorem blend_zero_on_empty_or_zero_weight :
    ∀ (items : List News.NewsItem) (sm : Option (List (String × ℚ))),
      items = [] ∨ News.blendTotalWeight items sm = 0 →
      News.sourceWeightedSentiment items sm = (0, [], []) := by
  intro items sm h
  rcases h with h | h
  · subst h
    rfl
  · by_cases hi : items = []
    · subst hi
      rfl
    · exfalso
      have hpos : 0 < News.blendTotalWeight items sm :=
        blendTotals_totalWeight_pos (News.blendGroups items).2 sm (News.blendGroups items).1
          (blendGroups_countsCover items) (blendGroups_fst_ne_nil items hi)
      rw [h] at hpos
      exact lt_irrefl 0 hpos

/-- Witness for C8: `blend([]) == (0.0, {}, {})`. -/
theorem blend_empty_witness :
    News.sourceWeightedSentiment [] none = (0, [], []) :=
  blend_zero_on_empty_or_zero_weight [] none (Or.inl rfl)

/-! ## C4 — `maybe_resolve_call` early exits -/

/-- All conditions under which `maybe_resolve_call` actually resolves: a
positive price, an open call for the (upper-cased) symbol, a parseable
timestamp whose elapsed time reaches the evaluation horizon, and a positive
numeric entry price. -/
def resolveApplicable (cfg : DecisionLearning.StoreConfig) (st : DecisionLearning.Store)
    (now : ℚ) (symbol : String) (currentPrice : ℚ) : Prop :=
  0 < currentPrice ∧
    ∃ call, alistLookup st.openCalls (strUpper symbol) = some call ∧
      ∃ t, call.createdAt = some t ∧ cfg.evaluationHorizon ≤ now - t ∧
        ∃ ep, call.entryPrice = some ep ∧ 0 < ep

/-- The condition under which `maybe_resolve_call` silently *discards* the
open call while returning `None`: the price is positive, a call exists, and
either its timestamp is missing/unparseable, or the horizon has elapsed but
its entry price is missing or non-positive. -/
def discardsCall (cfg : DecisionLearning.StoreConfig) (st : DecisionLearning.Store)
    (now : ℚ) (symbol : String) (currentPrice : ℚ) : Prop :=
  0 < currentPrice ∧
    ∃ call, alistLookup st.openCalls (strUpper symbol) = some call ∧
      (call.createdAt = none ∨
        ∃ t, call.createdAt = some t ∧ cfg.evaluationHorizon ≤ now - t ∧
          (call.entryPrice = none ∨ ∃ ep, call.entryPrice = some ep ∧ ep ≤ 0))

/-- C4 (amended): whenever the resolution conditions fail,
`maybe_resolve_call` returns `None` and leaves feature penalties and source
biases unchanged; the open-call ledger is also unchanged *except* that a
call with an unparseable timestamp — or one past its horizon with an invalid
entry price — is silently discarded, which does change the store state. -/
theorem maybe_resolve_call_noop_except_discard :
    ∀ (cfg : DecisionLearning.StoreConfig) (st : DecisionLearning.Store)
      (now : ℚ) (symbol : String) (currentPrice : ℚ),
      ¬ resolveApplicable cfg st now symbol currentPrice →
      (DecisionLearning.maybeResolveCall cfg st now symbol currentPrice).1 = none
      ∧ (DecisionLearning.maybeResolveCall cfg st now symbol currentPrice).2.featurePenalties
          = st.featurePenalties
      ∧ (DecisionLearning.maybeResolveCall cfg st now symbol currentPrice).2.sourceBias
          = st.sourceBias
      ∧ (¬ discardsCall cfg st now symbol currentPrice →
          (DecisionLearning.maybeResolveCall cfg st now symbol currentPrice).2.openCalls
            = st.openCalls)
      ∧ (discardsCall cfg st now symbol currentPrice →
          (DecisionLearning.maybeResolveCall cfg st now symbol currentPrice).2.openCalls
            = alistErase st.openCalls (strUpper symbol)) := by
  intro cfg st now symbol currentPrice h
  unfold DecisionLearning.maybeResolveCall
  by_cases hcp : currentPrice ≤ 0
  · rw [if_pos hcp]
    refine ⟨by trivial, by trivial, by trivial, fun _ => by trivial, fun hd => ?_⟩
    exact absurd hd.1 (not_lt.mpr hcp)
  · rw [if_neg hcp]
    push_neg at hcp
    cases hlk : alistLookup st.openCalls (strUpper symbol) with
    | none =>
        simp only [hlk]
        refine ⟨by trivial, by trivial, by trivial, fun _ => by trivial, fun hd => ?_⟩
        obtain ⟨_, call, hcall, _⟩ := hd
        exact Option.noConfusion (hlk.symm.trans hcall)
    | some call =>
        simp only [hlk]
        cases hca : call.createdAt with
        | none =>
            simp only [hca]
            refine ⟨by trivial, by trivial, by trivial, fun hnd => ?_, fun _ => by trivial⟩
            exact absurd ⟨hcp, call, hlk, Or.inl hca⟩ hnd
        | some t =>
            simp only [hca]
            by_cases hh : now - t < cfg.evaluationHorizon
            · rw [if_pos hh]
              refine ⟨by trivial, by trivial, by trivial, fun _ => by trivial, fun hd => ?_⟩
              obtain ⟨_, call', hcall', hd'⟩ := hd
              have hceq : call' = call := by
                have := hlk.symm.trans hcall'
                exact (Option.some.injEq _ _ ▸ this).symm
              subst hceq
              rcases hd' with hnone | ⟨t', ht', hht', _⟩
              · exact Option.noConfusion (hca.symm.trans hnone)
              · have : t' = t := by
                  have := hca.symm.trans ht'
                  exact (Option.some.injEq _ _ ▸ this).symm
                subst this
                exact absurd hht' (not_le.mpr hh)
            · rw [if_neg hh]
              push_neg at hh
              cases hep : call.entryPrice with
              | none =>
                  simp only [hep]
                  refine ⟨by trivial, by trivial, by trivial, fun hnd => ?_, fun _ => by trivial⟩
                  exact absurd ⟨hcp, call, hlk, Or.inr ⟨t, hca, hh, Or.inl hep⟩⟩ hnd
              | some ep =>
                  simp only [hep]
                  by_cases hpe : ep ≤ 0
                  · rw [if_pos hpe]
                    refine ⟨by trivial, by trivial, by trivial, fun hnd => ?_, fun _ => by trivial⟩
                    exact absurd
                      ⟨hcp, call, hlk, Or.inr ⟨t, hca, hh, Or.inr ⟨ep, hep, hpe⟩⟩⟩ hnd
                  · exact absurd
                      ⟨hcp, call, hlk, t, hca, hh, ep, hep, not_le.mp hpe⟩ h

/-- A concrete store configuration (1-hour horizon, standard rates). -/
def resolveExampleConfig : DecisionLearning.StoreConfig :=
  { evaluationHorizon := 3600, badCallReturnThreshold := -(3/100)
    goodCallReturnThreshold := 3/100, learningRate := 1/10
    maxFeaturePenalty := 1/2, enableSourcePriorityLearning := true
    sourceLearningRate := 18/100, maxSourceBias := 8/10 }

/-- A store holding one open call for `"A"` whose `created_at` is
missing/unparseable. -/
def staleCallStore : DecisionLearning.Store :=
  { featurePenalties := fun _ => 0, sourceBias := fun _ => 0
    openCalls := [("A",
      { createdAt := none, entryPrice := some 10, signalScore := 1
        featureProfile := fun _ => 0, sourceProfile := [] })] }

/-- C4 counterexample: with an open call whose timestamp is unparseable and a
positive current price, `maybe_resolve_call` returns `None` but *removes* the
call from `open_calls` — the store state changes, so the call is not the
claimed no-op. -/
theorem maybe_resolve_call_discards_unparseable_counterexample :
    (DecisionLearning.maybeResolveCall resolveExampleConfig staleCallStore 0 "A" 5).1 = none
    ∧ (DecisionLearning.maybeResolveCall resolveExampleConfig staleCallStore 0 "A" 5).2.openCalls
        = []
    ∧ alistLookup staleCallStore.openCalls "A"
        = some { createdAt := none, entryPrice := some 10, signalScore := 1
                 featureProfile := fun _ => 0, sourceProfile := [] } := by
  have hlk : alistLookup staleCallStore.openCalls (strUpper "A")
      = some { createdAt := none, entryPrice := some 10, signalScore := 1
               featureProfile := fun _ => 0, sourceProfile := [] } := rfl
  refine ⟨?_, ?_, rfl⟩
  · unfold DecisionLearning.maybeResolveCall
    rw [if_neg (by norm_num : ¬(5 : ℚ) ≤ 0)]
    simp only [hlk]
  · unfold DecisionLearning.maybeResolveCall
    rw [if_neg (by norm_num : ¬(5 : ℚ) ≤ 0)]
    simp only [hlk]
    rfl

/-- Witness for C4 (amended) on a store with no open call. -/
theorem maybe_resolve_call_noop_witness :
    (DecisionLearning.maybeResolveCall resolveExampleConfig
        { featurePenalties := fun _ => 0, sourceBias := fun _ => 0, openCalls := [] }
        0 "A" 1).1 = none
    ∧ (DecisionLearning.maybeResolveCall resolveExampleConfig
        { featurePenalties := fun _ => 0, sourceBias := fun _ => 0, openCalls := [] }
        0 "A" 1).2.openCalls = [] :=
  ⟨(maybe_resolve_call_noop_except_discard resolveExampleConfig
      { featurePenalties := fun _ => 0, sourceBias := fun _ => 0, openCalls := [] }
      0 "A" 1 (by simp [resolveApplicable, alistLookup])).1,
    (maybe_resolve_call_noop_except_discard resolveExampleConfig
      { featurePenalties := fun _ => 0, sourceBias := fun _ => 0, openCalls := [] }
      0 "A" 1 (by simp [resolveApplicable, alistLookup])).2.2.2.1
      (by simp [discardsCall, alistLookup])⟩

/-! ## C6 — BUY notionals never exceed the running estimated cash -/

theorem equityEntriesLoop_fits (minN : ℚ) (tq held : List (String × ℤ)) :
    ∀ (sigs : List Engine.ESignal) (cash : ℚ),
      Engine.notionalsFitCash cash (Engine.equityEntriesLoop minN tq held sigs cash).1
  | [], _ => trivial
  | s :: rest, cash => by
      simp only [Engine.equityEntriesLoop]
      split
      · exact equityEntriesLoop_fits minN tq held rest cash
      · split
        · exact equityEntriesLoop_fits minN tq held rest cash
        · split
          · exact equityEntriesLoop_fits minN tq held rest cash
          · next h3 =>
              exact ⟨not_lt.mp h3,
                equityEntriesLoop_fits minN tq held rest
                  (cash - (((alistLookup tq s.symbol).getD 0
                      - (alistLookup held s.symbol).getD 0 : ℤ) : ℚ) * s.price)⟩

theorem equityEntriesLoop_mem (minN : ℚ) (tq held : List (String × ℤ)) :
    ∀ (sigs : List Engine.ESignal) (cash : ℚ) (p : Engine.TradeOrder × ℚ),
      p ∈ (Engine.equityEntriesLoop minN tq held sigs cash).1 →
      p.1.instruction = "BUY"
        ∧ ∃ s ∈ sigs, p.1.symbol = s.symbol ∧ p.2 = (p.1.quantity : ℚ) * s.price
  | [], _, p, hp => absurd hp (List.not_mem_nil p)
  | s :: rest, cash, p, hp => by
      simp only [Engine.equityEntriesLoop] at hp
      split at hp
      · obtain ⟨h1, s', hs', h2⟩ := equityEntriesLoop_mem minN tq held rest cash p hp
        exact ⟨h1, s', List.mem_cons_of_mem _ hs', h2⟩
      · split at hp
        · obtain ⟨h1, s', hs', h2⟩ := equityEntriesLoop_mem minN tq held rest cash p hp
          exact ⟨h1, s', List.mem_cons_of_mem _ hs', h2⟩
        · split at hp
          · obtain ⟨h1, s', hs', h2⟩ := equityEntriesLoop_mem minN tq held rest cash p hp
            exact ⟨h1, s', List.mem_cons_of_mem _ hs', h2⟩
          · rcases List.mem_cons.mp hp with hp1 | hp1
            · subst hp1
              exact ⟨rfl, s, List.mem_cons_self _ _, rfl, rfl⟩
            · obtain ⟨h1, s', hs', h2⟩ := equityEntriesLoop_mem minN tq held rest _ p hp1
              exact ⟨h1, s', List.mem_cons_of_mem _ hs', h2⟩

theorem optionEntriesLoop_fits (pick : String → ℚ → Option Engine.OContract)
    (minN optTh : ℚ) (isOv : Bool) (forced : List String) :
    ∀ (sigs : List Engine.ESignal) (slots : ℤ) (budget cash : ℚ) (held : List String),
      Engine.notionalsFitCash cash
        (Engine.optionEntriesLoop pick minN optTh isOv forced sigs slots budget cash held)
  | [], _, _, _, _ => trivial
  | s :: rest, slots, budget, cash, held => by
      simp only [Engine.optionEntriesLoop]
      split
      · trivial
      · split
        · exact optionEntriesLoop_fits pick minN optTh isOv forced rest slots budget cash held
        · split
          · trivial
          · split
            · exact optionEntriesLoop_fits pick minN optTh isOv forced rest slots budget cash held
            · split
              · trivial
              · split
                · exact optionEntriesLoop_fits pick minN optTh isOv forced rest slots budget
                    cash held
                · next contract heq =>
                    split
                    · exact optionEntriesLoop_fits pick minN optTh isOv forced rest slots budget
                        cash held
                    · next hfit =>
                        refine ⟨le_trans (not_lt.mp hfit) (min_le_right budget cash), ?_⟩
                        exact optionEntriesLoop_fits pick minN optTh isOv forced rest (slots - 1)
                          (budget - contract.premiumPerContract)
                          (cash - contract.premiumPerContract) (s.symbol :: held)

theorem optionEntriesLoop_mem (pick : String → ℚ → Option Engine.OContract)
    (minN optTh : ℚ) (isOv : Bool) (forced : List String) :
    ∀ (sigs : List Engine.ESignal) (slots : ℤ) (budget cash : ℚ) (held : List String)
      (p : Engine.TradeOrder × ℚ),
      p ∈ Engine.optionEntriesLoop pick minN optTh isOv forced sigs slots budget cash held →
      p.1.instruction = "BUY_TO_OPEN" ∧ p.1.quantity = 1
        ∧ ∃ symbol contractBudget contract,
            pick symbol contractBudget = some contract
              ∧ p.1.symbol = contract.symbol
              ∧ p.2 = contract.premiumPerContract
              ∧ contract.premiumPerContract ≤ contractBudget
  | [], _, _, _, _, p, hp => absurd hp (List.not_mem_nil p)
  | s :: rest, slots, budget, cash, held, p, hp => by
      simp only [Engine.optionEntriesLoop] at hp
      split at hp
      · exact absurd hp (List.not_mem_nil p)
      · split at hp
        · exact optionEntriesLoop_mem pick minN optTh isOv forced rest _ _ _ _ p hp
        · split at hp
          · exact absurd hp (List.not_mem_nil p)
          · split at hp
            · exact optionEntriesLoop_mem pick minN optTh isOv forced rest _ _ _ _ p hp
            · split at hp
              · exact absurd hp (List.not_mem_nil p)
              · split at hp
                · exact optionEntriesLoop_mem pick minN optTh isOv forced rest _ _ _ _ p hp
                · next contract heq =>
                    split at hp
                    · exact optionEntriesLoop_mem pick minN optTh isOv forced rest _ _ _ _ p hp
                    · next hfit =>
                        rcases List.mem_cons.mp hp with hp1 | hp1
                        · subst hp1
                          exact ⟨rfl, rfl, s.symbol, min budget cash, contract, heq, rfl, rfl,
                            not_lt.mp hfit⟩
                        · exact optionEntriesLoop_mem pick minN optTh isOv forced rest _ _ _ _
                            p hp1

theorem equityExitsLoop_sell (sigsBy : String → Option Engine.ESignal)
    (signalToExit : ℚ) (forced : List String) (tq : List (String × ℤ)) :
    ∀ (positions : List (String × ℤ)) (cash : ℚ) (res : List Engine.TradeOrder × ℚ),
      Engine.equityExitsLoop sigsBy signalToExit forced tq positions cash = some res →
      ∀ o ∈ res.1, o.instruction = "SELL"
  | [], cash, res, hres, o, ho => by
      simp only [Engine.equityExitsLoop, Option.some.injEq] at hres
      subst hres
      exact absurd ho (List.not_mem_nil o)
  | (symbol, quantity) :: rest, cash, res, hres, o, ho => by
      simp only [Engine.equityExitsLoop] at hres
      split at hres
      · exact equityExitsLoop_sell sigsBy signalToExit forced tq rest cash res hres o ho
      · split at hres
        · rcases Option.map_eq_some'.mp hres with ⟨r, hr, hfr⟩
          subst hfr
          rcases List.mem_cons.mp ho with ho1 | ho1
          · rw [ho1]
            rfl
          · exact equityExitsLoop_sell sigsBy signalToExit forced tq rest _ r hr o ho1
        · split at hres
          · split at hres
            · split at hres
              · exact Option.noConfusion hres
              · rcases Option.map_eq_some'.mp hres with ⟨r, hr, hfr⟩
                subst hfr
                rcases List.mem_cons.mp ho with ho1 | ho1
                · rw [ho1]
                  rfl
                · exact equityExitsLoop_sell sigsBy signalToExit forced tq rest _ r hr o ho1
            · exact equityExitsLoop_sell sigsBy signalToExit forced tq rest cash res hres o ho
          · split at hres
            · rcases Option.map_eq_some'.mp hres with ⟨r, hr, hfr⟩
              subst hfr
              rcases List.mem_cons.mp ho with ho1 | ho1
              · rw [ho1]
                rfl
              · exact equityExitsLoop_sell sigsBy signalToExit forced tq rest _ r hr o ho1
            · split at hres
              · rcases Option.map_eq_some'.mp hres with ⟨r, hr, hfr⟩
                subst hfr
                rcases List.mem_cons.mp ho with ho1 | ho1
                · rw [ho1]
                  rfl
                · exact equityExitsLoop_sell sigsBy signalToExit forced tq rest _ r hr o ho1
              · exact equityExitsLoop_sell sigsBy signalToExit forced tq rest cash res hres o ho

theorem optionExitsLoop_sell_to_close (sigsBy : String → Option Engine.ESignal)
    (underlyingOf : String → String) (signalToExit : ℚ) (forced : List String) :
    ∀ (positions : List (String × ℤ)) (o : Engine.TradeOrder),
      o ∈ Engine.optionExitsLoop sigsBy underlyingOf signalToExit forced positions →
      o.instruction = "SELL_TO_CLOSE"
  | [], o, ho => absurd ho (List.not_mem_nil o)
  | (optionSymbol, quantity) :: rest, o, ho => by
      simp only [Engine.optionExitsLoop] at ho
      split at ho
      · exact optionExitsLoop_sell_to_close sigsBy underlyingOf signalToExit forced rest o ho
      · split at ho
        · rcases List.mem_cons.mp ho with ho1 | ho1
          · rw [ho1]
            rfl
          · exact optionExitsLoop_sell_to_close sigsBy underlyingOf signalToExit forced rest o ho1
        · split at ho
          · split at ho
            · rcases List.mem_cons.mp ho with ho1 | ho1
              · rw [ho1]
                rfl
              · exact optionExitsLoop_sell_to_close sigsBy underlyingOf signalToExit forced rest
                  o ho1
            · exact optionExitsLoop_sell_to_close sigsBy underlyingOf signalToExit forced rest o ho
          · exact optionExitsLoop_sell_to_close sigsBy underlyingOf signalToExit forced rest o ho

/-- C6: in every order list the planner constructs — rule-based or
external-plan path, both being instances of the quantified candidate
selection — the result decomposes into the planner's own exit orders
followed by the entry orders.  For equities, `cashAfterExits` is pinned by
the exits-loop equation to the cash produced from `snapshot.cash` plus the
estimated sale proceeds, and the annotated entry list is pinned to the
actual entries-loop output at that cash, so `notionalsFitCash` states that
each emitted BUY's notional (`quantity × signal price` for a selected
candidate) is covered by the estimated remaining cash at its append point.
For options, the annotated entry list is pinned to the actual entry stage
started at `estimated_cash`, every annotation is the premium of a contract
actually returned by the chain/`choose_bullish_call` oracle within its
offered budget, and `notionalsFitCash estimatedCash` bounds each premium by
the running cash at its append point. -/
theorem order_planner_buys_within_running_cash :
    (∀ (cfg : Engine.EngineConfig) (sigsBy : String → Option Engine.ESignal)
        (snapshot : Engine.Snapshot) (accountEquity : ℚ) (signals : List Engine.ESignal)
        (override : Option (List Engine.ESignal)) (forced : List String)
        (res : List Engine.TradeOrder × ℚ),
      Engine.buildEquityOrders cfg sigsBy snapshot accountEquity signals override forced
          = some res →
      ∃ targetQty exitOrders cashAfterExits,
        Engine.equityTargetQty cfg sigsBy accountEquity signals override = some targetQty
        ∧ Engine.equityExitsLoop sigsBy cfg.signalToExit (forced.map strUpper) targetQty
            snapshot.equityPositions snapshot.cash = some (exitOrders, cashAfterExits)
        ∧ res = (exitOrders
              ++ ((Engine.equityEntriesLoop cfg.minOrderNotional targetQty
                    snapshot.equityPositions
                    (Engine.selectEquityCandidates cfg sigsBy signals override)
                    cashAfterExits).1).map Prod.fst,
            (Engine.equityEntriesLoop cfg.minOrderNotional targetQty
              snapshot.equityPositions
              (Engine.selectEquityCandidates cfg sigsBy signals override)
              cashAfterExits).2)
        ∧ (∀ o ∈ exitOrders, o.instruction = "SELL")
        ∧ (∀ p ∈ (Engine.equityEntriesLoop cfg.minOrderNotional targetQty
              snapshot.equityPositions
              (Engine.selectEquityCandidates cfg sigsBy signals override)
              cashAfterExits).1,
            p.1.instruction = "BUY"
              ∧ ∃ s ∈ Engine.selectEquityCandidates cfg sigsBy signals override,
                  p.1.symbol = s.symbol ∧ p.2 = (p.1.quantity : ℚ) * s.price)
        ∧ Engine.notionalsFitCash cashAfterExits
            (Engine.equityEntriesLoop cfg.minOrderNotional targetQty
              snapshot.equityPositions
              (Engine.selectEquityCandidates cfg sigsBy signals override)
              cashAfterExits).1)
    ∧ (∀ (cfg : Engine.EngineConfig) (sigsBy : String → Option Engine.ESignal)
        (underlyingOf : String → String) (pick : String → ℚ → Option Engine.OContract)
        (snapshot : Engine.Snapshot) (accountEquity estimatedCash : ℚ)
        (signals : List Engine.ESignal) (override : Option (List Engine.ESignal))
        (forced : List String),
      Engine.buildOptionOrders cfg sigsBy underlyingOf pick snapshot accountEquity
          estimatedCash signals override forced
        = Engine.optionExitOrdersOf cfg sigsBy underlyingOf snapshot forced
          ++ (Engine.optionEntryPairs cfg sigsBy underlyingOf pick snapshot accountEquity
              estimatedCash signals override forced).map Prod.fst
      ∧ (∀ o ∈ Engine.optionExitOrdersOf cfg sigsBy underlyingOf snapshot forced,
          o.instruction = "SELL_TO_CLOSE")
      ∧ (∀ p ∈ Engine.optionEntryPairs cfg sigsBy underlyingOf pick snapshot accountEquity
            estimatedCash signals override forced,
          p.1.instruction = "BUY_TO_OPEN" ∧ p.1.quantity = 1
            ∧ ∃ symbol contractBudget contract,
                pick symbol contractBudget = some contract
                  ∧ p.1.symbol = contract.symbol
                  ∧ p.2 = contract.premiumPerContract
                  ∧ contract.premiumPerContract ≤ contractBudget)
      ∧ Engine.notionalsFitCash estimatedCash
          (Engine.optionEntryPairs cfg sigsBy underlyingOf pick snapshot accountEquity
            estimatedCash signals override forced)) := by
  constructor
  · intro cfg sigsBy snapshot accountEquity signals override forced res hres
    simp only [Engine.buildEquityOrders] at hres
    split at hres
    · exact Option.noConfusion hres
    · next tq heq =>
        split at hres
        · exact Option.noConfusion hres
        · next exits hex =>
            obtain ⟨exo, c1⟩ := exits
            rw [Option.some.injEq] at hres
            subst hres
            refine ⟨tq, exo, c1, heq, hex, rfl, ?_, ?_, ?_⟩
            · exact equityExitsLoop_sell sigsBy cfg.signalToExit
                (forced.map strUpper) tq snapshot.equityPositions snapshot.cash (exo, c1) hex
            · intro p hp
              exact equityEntriesLoop_mem cfg.minOrderNotional tq snapshot.equityPositions
                (Engine.selectEquityCandidates cfg sigsBy signals override) c1 p hp
            · exact equityEntriesLoop_fits cfg.minOrderNotional tq snapshot.equityPositions
                (Engine.selectEquityCandidates cfg sigsBy signals override) c1
  · intro cfg sigsBy underlyingOf pick snapshot accountEquity estimatedCash signals override
      forced
    refine ⟨?_, ?_, ?_, ?_⟩
    · simp only [Engine.buildOptionOrders, Engine.optionExitOrdersOf, Engine.optionEntryPairs]
      by_cases h1 : ¬cfg.enableOptions = true ∨ cfg.maxOptionContracts ≤ 0
      · simp only [if_pos h1]
        rfl
      · simp only [if_neg h1]
        by_cases h2 : cfg.maxOptionContracts
            - (snapshot.optionPositions.map fun entry => max 0 entry.2).sum ≤ 0
        · simp only [if_pos h2]
          simp
        · simp only [if_neg h2]
          by_cases h3 : min (accountEquity * cfg.optionCapitalFraction) estimatedCash
              < cfg.minOrderNotional
          · simp only [if_pos h3]
            simp
          · simp only [if_neg h3]
    · intro o ho
      simp only [Engine.optionExitOrdersOf] at ho
      split at ho
      · exact absurd ho (List.not_mem_nil o)
      · exact optionExitsLoop_sell_to_close sigsBy underlyingOf cfg.signalToExit
          (forced.map strUpper) snapshot.optionPositions o ho
    · intro p hp
      simp only [Engine.optionEntryPairs] at hp
      split at hp
      · exact absurd hp (List.not_mem_nil p)
      · split at hp
        · exact absurd hp (List.not_mem_nil p)
        · split at hp
          · exact absurd hp (List.not_mem_nil p)
          · exact optionEntriesLoop_mem pick cfg.minOrderNotional cfg.optionSignalThreshold
              override.isSome (forced.map strUpper) _ _ _ _ _ p hp
    · simp only [Engine.optionEntryPairs]
      split
      · trivial
      · split
        · trivial
        · split
          · trivial
          · exact optionEntriesLoop_fits pick cfg.minOrderNotional cfg.optionSignalThreshold
              override.isSome (forced.map strUpper) _ _ _ _ _

/-- Witness for C6 on an empty portfolio and signal set: the equity builder
returns `some ([], 0)` and the anchored decomposition holds there. -/
theorem order_planner_buys_within_cash_witness :
    ∃ targetQty exitOrders cashAfterExits,
      Engine.equityTargetQty ⟨0, 0, 0, 0, 0, 0, false, 0, 0, 0⟩ (fun _ => none) 0 [] none
          = some targetQty
      ∧ Engine.equityExitsLoop (fun _ => none) 0 [] targetQty [] 0
          = some (exitOrders, cashAfterExits)
      ∧ (([], 0) : List Engine.TradeOrder × ℚ)
          = (exitOrders
              ++ ((Engine.equityEntriesLoop 0 targetQty []
                    (Engine.selectEquityCandidates ⟨0, 0, 0, 0, 0, 0, false, 0, 0, 0⟩
                      (fun _ => none) [] none) cashAfterExits).1).map Prod.fst,
            (Engine.equityEntriesLoop 0 targetQty []
              (Engine.selectEquityCandidates ⟨0, 0, 0, 0, 0, 0, false, 0, 0, 0⟩
                (fun _ => none) [] none) cashAfterExits).2)
      ∧ (∀ o ∈ exitOrders, o.instruction = "SELL")
      ∧ (∀ p ∈ (Engine.equityEntriesLoop 0 targetQty []
            (Engine.selectEquityCandidates ⟨0, 0, 0, 0, 0, 0, false, 0, 0, 0⟩
              (fun _ => none) [] none) cashAfterExits).1,
          p.1.instruction = "BUY"
            ∧ ∃ s ∈ Engine.selectEquityCandidates ⟨0, 0, 0, 0, 0, 0, false, 0, 0, 0⟩
                (fun _ => none) [] none,
                p.1.symbol = s.symbol ∧ p.2 = (p.1.quantity : ℚ) * s.price)
      ∧ Engine.notionalsFitCash cashAfterExits
          (Engine.equityEntriesLoop 0 targetQty []
            (Engine.selectEquityCandidates ⟨0, 0, 0, 0, 0, 0, false, 0, 0, 0⟩
              (fun _ => none) [] none) cashAfterExits).1 :=
  order_planner_buys_within_running_cash.1 ⟨0, 0, 0, 0, 0, 0, false, 0, 0, 0⟩ (fun _ => none)
    ⟨0, [], []⟩ 0 [] none [] ([], 0) rfl
